import Mathlib

/-!
Verification development for the Mr. Teals paper-trading dashboard.

The repository contains several near-duplicate client-side paper-trading
ledgers.  We shallowly embed the four ledger variants that the claims cite:

* `PartTwo`  — the Phase 1.4 script (`src/unnamed/part_002`): `canBuy`,
  `canSell`, `executeTrade`, the trade-form handler, `computePositionsValue`,
  `recordEquityPoint`, and the starting-balance preset handler.
* `PartOne`  — the Phase 1.2 script (`src/unnamed/part_001`):
  `handleManualTrade`, `handleAddBalance`, `computePositionsValue`,
  `pushEquityPoint`.
* `AppJs`    — `src/app.js`: the `manualTradeForm` submit handler.
* `PartZero` — the backend-dashboard script (`src/unnamed/part_000`):
  the BUY/SELL branches of `simulateStep`, its positions-value/unrealized-PnL
  computation and its equity-history push.

Money and quantities are modelled as exact rationals (`ℚ`); the JavaScript
sources use IEEE doubles, so statements about arithmetic identities are the
ideal real-number statements the spec intends.  JavaScript objects keyed by
symbol strings are modelled as association lists with the JS `obj[k] = v` /
`delete obj[k]` semantics.  Where NaN/Infinity behaviour of a JS `number` is
load-bearing (the deposit handlers), we use the dedicated `JsNum` type.
-/

namespace MrTeals

/-- Trade side, values of the `side` select controls (`"BUY"`/`"SELL"`). -/
inductive Side
  | buy
  | sell
deriving DecidableEq, Repr

/-- Error outcomes of the validation steps in the trade handlers. -/
inductive TradeErr
  | invalidSymbol
  | invalidQuantity
  | priceUnavailable
  | insufficientCash
  | insufficientHoldings
deriving DecidableEq, Repr

/-- First-match lookup in an association list, `obj[k]` on a JS object
(whose keys are unique). -/
def lookupKey {α : Type} (s : String) : List (String × α) → Option α
  | [] => none
  | (k, v) :: rest => if k = s then some v else lookupKey s rest

/-- `obj[k] = v` on a JS object: replace the binding if the key is present,
append it otherwise. -/
def setKey {α : Type} (s : String) (v : α) : List (String × α) → List (String × α)
  | [] => [(s, v)]
  | (k, w) :: rest => if k = s then (s, v) :: rest else (k, w) :: setKey s v rest

/-- `delete obj[k]` on a JS object: remove the binding of `k` (JS object keys
are unique, so removing the first occurrence is exact). -/
def delKey {α : Type} (s : String) : List (String × α) → List (String × α)
  | [] => []
  | (k, w) :: rest => if k = s then rest else (k, w) :: delKey s rest

/-- Symbol-to-rational map (positions `sym → qty`, metadata `sym → avg`). -/
abbrev SMap := List (String × ℚ)

/-- `Number(obj[sym]) || 0` / `obj[sym] ?? default` style read. -/
def heldQty (s : String) (m : SMap) : ℚ := (lookupKey s m).getD 0

/-- The keys of an association list. -/
def mapKeys {α : Type} (l : List (String × α)) : List String := l.map Prod.fst

/-- A JS-object-shaped association list: each key occurs at most once. -/
def keysNodup {α : Type} (l : List (String × α)) : Prop := (mapKeys l).Nodup

theorem lookupKey_setKey_self {α : Type} (s : String) (v : α) :
    ∀ l : List (String × α), lookupKey s (setKey s v l) = some v
  | [] => by simp [setKey, lookupKey]
  | (k, w) :: rest => by
    by_cases h : k = s
    · simp [setKey, lookupKey, h]
    · simp [setKey, lookupKey, h, lookupKey_setKey_self s v rest]

theorem lookupKey_setKey_ne {α : Type} {k s : String} (v : α) (hks : k ≠ s) :
    ∀ l : List (String × α), lookupKey k (setKey s v l) = lookupKey k l
  | [] => by simp [setKey, lookupKey, Ne.symm hks]
  | (k', w) :: rest => by
    by_cases h : k' = s
    · subst h
      simp [setKey, lookupKey, Ne.symm hks]
    · simp only [setKey, lookupKey, if_neg h]
      by_cases h2 : k' = k
      · simp [lookupKey, h2]
      · simp [lookupKey, h2, lookupKey_setKey_ne v hks rest]

theorem lookupKey_delKey_ne {α : Type} {k s : String} (hks : k ≠ s) :
    ∀ l : List (String × α), lookupKey k (delKey s l) = lookupKey k l
  | [] => by simp [delKey]
  | (k', w) :: rest => by
    by_cases h : k' = s
    · subst h
      simp [delKey, lookupKey, Ne.symm hks]
    · simp only [delKey, if_neg h]
      by_cases h2 : k' = k
      · simp [lookupKey, h2]
      · simp [lookupKey, h2, lookupKey_delKey_ne hks rest]

theorem lookupKey_mem {α : Type} {s : String} {v : α} :
    ∀ {l : List (String × α)}, lookupKey s l = some v → (s, v) ∈ l
  | [], h => by simp [lookupKey] at h
  | (k, w) :: rest, h => by
    by_cases hk : k = s
    · subst hk
      simp [lookupKey] at h
      simp [h]
    · simp only [lookupKey, if_neg hk] at h
      exact List.mem_cons_of_mem _ (lookupKey_mem h)

theorem lookupKey_eq_none_of_not_mem_keys {α : Type} {s : String} :
    ∀ {l : List (String × α)}, s ∉ mapKeys l → lookupKey s l = none
  | [], _ => rfl
  | (k, w) :: rest, h => by
    simp only [mapKeys, List.map_cons, List.mem_cons, not_or] at h
    have hk : k ≠ s := fun hk => h.1 hk.symm
    simp only [lookupKey, if_neg hk]
    exact lookupKey_eq_none_of_not_mem_keys (by simpa [mapKeys] using h.2)

theorem mem_setKey {α : Type} {e : String × α} {s : String} {v : α} :
    ∀ {l : List (String × α)}, e ∈ setKey s v l → e = (s, v) ∨ e ∈ l
  | [], h => Or.inl (by simpa [setKey] using h)
  | (k, w) :: rest, h => by
    by_cases hk : k = s
    · simp only [setKey, if_pos hk, List.mem_cons] at h
      rcases h with h | h
      · exact Or.inl h
      · exact Or.inr (List.mem_cons_of_mem _ h)
    · simp only [setKey, if_neg hk, List.mem_cons] at h
      rcases h with h | h
      · exact Or.inr (by simp [h])
      · rcases mem_setKey h with h2 | h2
        · exact Or.inl h2
        · exact Or.inr (List.mem_cons_of_mem _ h2)

theorem delKey_sublist {α : Type} (s : String) :
    ∀ l : List (String × α), (delKey s l).Sublist l
  | [] => List.Sublist.refl _
  | (k, w) :: rest => by
    by_cases hk : k = s
    · simp only [delKey, if_pos hk]
      exact List.sublist_cons_self _ _
    · simp only [delKey, if_neg hk]
      exact List.Sublist.cons₂ (k, w) (delKey_sublist s rest)

theorem delKey_setKey {α : Type} (s : String) (v : α) :
    ∀ l : List (String × α), delKey s (setKey s v l) = delKey s l
  | [] => by simp [setKey, delKey]
  | (k, w) :: rest => by
    by_cases hk : k = s
    · simp [setKey, delKey, hk]
    · simp [setKey, delKey, hk, delKey_setKey s v rest]

theorem mem_mapKeys_setKey {α : Type} {x s : String} {v : α} :
    ∀ {l : List (String × α)}, x ∈ mapKeys (setKey s v l) → x = s ∨ x ∈ mapKeys l
  | [], h => by simpa [setKey, mapKeys] using h
  | (k, w) :: rest, h => by
    by_cases hk : k = s
    · simp only [setKey, if_pos hk, mapKeys, List.map_cons, List.mem_cons] at h ⊢
      tauto
    · simp only [setKey, if_neg hk, mapKeys, List.map_cons, List.mem_cons] at h ⊢
      rcases h with h | h
      · tauto
      · rcases mem_mapKeys_setKey h with h2 | h2 <;> tauto

theorem keysNodup_setKey {α : Type} (s : String) (v : α) :
    ∀ l : List (String × α), keysNodup l → keysNodup (setKey s v l)
  | [], _ => by simp [setKey, keysNodup, mapKeys]
  | (k, w) :: rest, h => by
    simp only [keysNodup, mapKeys, List.map_cons, List.nodup_cons] at h
    by_cases hk : k = s
    · subst hk
      simp only [setKey, if_pos rfl, ite_true, keysNodup, mapKeys, List.map_cons,
        List.nodup_cons]
      exact h
    · have ih := keysNodup_setKey s v rest (by simpa [keysNodup, mapKeys] using h.2)
      simp only [setKey, if_neg hk, keysNodup, mapKeys, List.map_cons, List.nodup_cons]
      refine ⟨fun hmem => ?_, by simpa [keysNodup, mapKeys] using ih⟩
      rcases mem_mapKeys_setKey hmem with h2 | h2
      · exact hk h2
      · exact h.1 (by simpa [mapKeys] using h2)

theorem keysNodup_delKey {α : Type} (s : String) (l : List (String × α))
    (h : keysNodup l) : keysNodup (delKey s l) :=
  List.Nodup.sublist (List.Sublist.map Prod.fst (delKey_sublist s l)) h

theorem lookupKey_delKey_self {α : Type} (s : String) :
    ∀ l : List (String × α), keysNodup l → lookupKey s (delKey s l) = none
  | [], _ => rfl
  | (k, w) :: rest, h => by
    simp only [keysNodup, mapKeys, List.map_cons, List.nodup_cons] at h
    by_cases hk : k = s
    · subst hk
      simp only [delKey, if_pos rfl]
      exact lookupKey_eq_none_of_not_mem_keys (by simpa [mapKeys] using h.1)
    · simp only [delKey, if_neg hk, lookupKey, if_neg hk]
      exact lookupKey_delKey_self s rest (by simpa [keysNodup, mapKeys] using h.2)

/-- Value of a symbol→quantity map at a total price assignment. -/
def valueAt (pxv : String → ℚ) (l : SMap) : ℚ :=
  (l.map (fun e => pxv e.1 * e.2)).sum

theorem valueAt_setKey (pxv : String → ℚ) (s : String) (q : ℚ) :
    ∀ l : SMap, valueAt pxv (setKey s q l) =
      valueAt pxv l + pxv s * (q - (lookupKey s l).getD 0)
  | [] => by simp [valueAt, setKey, lookupKey]
  | (k, w) :: rest => by
    by_cases hk : k = s
    · subst hk
      simp only [valueAt, setKey, lookupKey, if_pos rfl, ite_true, List.map_cons,
        List.sum_cons, Option.getD_some]
      ring
    · simp only [valueAt, setKey, if_neg hk, lookupKey, List.map_cons, List.sum_cons]
      have ih := valueAt_setKey pxv s q rest
      simp only [valueAt] at ih
      rw [ih]
      ring

theorem valueAt_delKey (pxv : String → ℚ) (s : String) :
    ∀ l : SMap, valueAt pxv (delKey s l) = valueAt pxv l - pxv s * (lookupKey s l).getD 0
  | [] => by simp [valueAt, delKey, lookupKey]
  | (k, w) :: rest => by
    by_cases hk : k = s
    · subst hk
      simp only [valueAt, delKey, lookupKey, if_pos rfl, ite_true, List.map_cons,
        List.sum_cons, Option.getD_some]
      ring
    · simp only [valueAt, delKey, if_neg hk, lookupKey, List.map_cons, List.sum_cons]
      have ih := valueAt_delKey pxv s rest
      simp only [valueAt] at ih
      rw [ih]
      ring

/-- A timestamped equity point `{t, v}` of the equity-history series. -/
structure EqPoint where
  t : ℚ
  v : ℚ
deriving DecidableEq, Repr

namespace PartTwo

/-- One entry of `state.trades` in `src/unnamed/part_002`: SELL records carry
a `pnl` field, BUY records do not (`pnl = none`). -/
structure Trade where
  symbol : String
  side : Side
  qty : ℚ
  price : ℚ
  total : ℚ
  pnl : Option ℚ
deriving DecidableEq, Repr

/-- The persistent ledger fields of `state` in `src/unnamed/part_002`:
`cash`, `positions` (sym → qty), `positionsMeta` (sym → {avg}), `trades`. -/
structure State where
  cash : ℚ
  positions : SMap
  positionsMeta : SMap
  trades : List Trade
deriving DecidableEq, Repr

/-- The BUY-side cash epsilon `1e-9` of `canBuy`. -/
def epsCash : ℚ := 1 / 1000000000

/-- The SELL-side quantity epsilon `1e-12` of `canSell` and the
position-deletion threshold of `executeTrade`. -/
def epsQty : ℚ := 1 / 1000000000000

/-- `avgCost(sym)`: `state.positionsMeta?.[sym]?.avg ?? null`. -/
def avgCost (st : State) (s : String) : Option ℚ := lookupKey s st.positionsMeta

/-- `canBuy(sym, qty)` from `src/unnamed/part_002` lines 169–173.  `getPrice`
returns `prices.get(sym)?.price ?? null` and `if(!p)` also treats a zero price
as unavailable. -/
def canBuy (px : String → Option ℚ) (st : State) (s : String) (qty : ℚ) : Option TradeErr :=
  match px s with
  | none => some TradeErr.priceUnavailable
  | some p =>
    if p = 0 then some TradeErr.priceUnavailable
    else if p * qty > st.cash + epsCash then some TradeErr.insufficientCash
    else none

/-- `canSell(sym, qty)` from `src/unnamed/part_002` lines 174–177. -/
def canSell (st : State) (s : String) (qty : ℚ) : Option TradeErr :=
  if qty > heldQty s st.positions + epsQty then some TradeErr.insufficientHoldings
  else none

/-- `executeTrade(sym, side, qty)` from `src/unnamed/part_002` lines 179–205,
restricted to the ledger fields (rendering/toast/save calls dropped).  On a
throw the returned state is the state at the throw site, which is the input
state: every throw precedes the first mutation. -/
def executeTrade (px : String → Option ℚ) (st : State) (s : String) (side : Side)
    (qty : ℚ) : Option TradeErr × State :=
  match px s with
  | none => (some TradeErr.priceUnavailable, st)
  | some p =>
    if p = 0 then (some TradeErr.priceUnavailable, st)
    else
      match side with
      | Side.buy =>
        match canBuy px st s qty with
        | some e => (some e, st)
        | none =>
          let prevQty := heldQty s st.positions
          let prevAvg := (avgCost st s).getD p
          let newQty := prevQty + qty
          let newAvg := if 0 < newQty then (prevAvg * prevQty + p * qty) / newQty else p
          (none,
            { cash := st.cash - p * qty
              positions := setKey s newQty st.positions
              positionsMeta := setKey s newAvg st.positionsMeta
              trades := ⟨s, Side.buy, qty, p, p * qty, none⟩ :: st.trades })
      | Side.sell =>
        match canSell st s qty with
        | some e => (some e, st)
        | none =>
          let prevQty := heldQty s st.positions
          let ac := (avgCost st s).getD p
          let newQty := prevQty - qty
          let pnl := (p - ac) * qty
          let pos1 := setKey s newQty st.positions
          (none,
            { cash := st.cash + p * qty
              positions := if newQty ≤ epsQty then delKey s pos1 else pos1
              positionsMeta :=
                if newQty ≤ epsQty then delKey s st.positionsMeta else st.positionsMeta
              trades := ⟨s, Side.sell, qty, p, p * qty, some pnl⟩ :: st.trades })

/-- The `tradeForm` submit handler from `src/unnamed/part_002` lines 284–294:
validates the symbol against the watchlist and `qty > 0`, then calls
`executeTrade`. -/
def tradeForm (symbols : List String) (px : String → Option ℚ) (st : State) (s : String)
    (side : Side) (qty : ℚ) : Option TradeErr × State :=
  if s ∉ symbols then (some TradeErr.invalidSymbol, st)
  else if ¬ 0 < qty then (some TradeErr.invalidQuantity, st)
  else executeTrade px st s side qty

/-- `computePositionsValue()` from `src/unnamed/part_002` lines 218–222:
`sum + (p ? p*qty : 0)` — a missing or zero price contributes `0`. -/
def computePositionsValue (px : String → Option ℚ) (m : SMap) : ℚ :=
  (m.map (fun e =>
    match px e.1 with
    | some p => if p = 0 then 0 else p * e.2
    | none => 0)).sum

/-- Retention window of `recordEquityPoint`: `7*24*60*60*1000` ms. -/
def weekMs : ℚ := 604800000

/-- `recordEquityPoint()` from `src/unnamed/part_002` line 223, with the
equity value and the current timestamp as parameters: push the point, then
`while (history[0].t < cutoff) history.shift()`. -/
def recordEquityPoint (hist : List EqPoint) (now eq : ℚ) : List EqPoint :=
  (hist ++ [EqPoint.mk now eq]).dropWhile (fun pt => decide (pt.t < now - weekMs))

end PartTwo

namespace PartOne

/-- One entry of `localTrades` in `src/unnamed/part_001` (no pnl field). -/
structure Trade where
  symbol : String
  side : Side
  qty : ℚ
  price : ℚ
  total : ℚ
deriving DecidableEq, Repr

/-- The ledger globals of `src/unnamed/part_001`: `localCash`,
`localPositions` (sym → qty), `localTrades`. -/
structure State where
  cash : ℚ
  positions : SMap
  trades : List Trade
deriving DecidableEq, Repr

/-- `handleManualTrade` from `src/unnamed/part_001` lines 393–451, with the
resolved price supplied as `px` (the handler awaits `fetchSinglePrice` before
validating; the price cache is not ledger state).  Every early return precedes
the first mutation of cash/positions/trades. -/
def handleManualTrade (symbols : List String) (px : String → Option ℚ) (st : State)
    (s : String) (side : Side) (qty : ℚ) : Option TradeErr × State :=
  if s ∉ symbols then (some TradeErr.invalidSymbol, st)
  else if ¬ 0 < qty then (some TradeErr.invalidQuantity, st)
  else
    match px s with
    | none => (some TradeErr.priceUnavailable, st)
    | some price =>
      let totalCost := price * qty
      match side with
      | Side.buy =>
        if totalCost > st.cash then (some TradeErr.insufficientCash, st)
        else
          (none,
            { cash := st.cash - totalCost
              positions := setKey s (heldQty s st.positions + qty) st.positions
              trades := st.trades ++ [⟨s, Side.buy, qty, price, totalCost⟩] })
      | Side.sell =>
        let held := heldQty s st.positions
        if qty > held then (some TradeErr.insufficientHoldings, st)
        else
          let newQty := held - qty
          let pos1 := setKey s newQty st.positions
          (none,
            { cash := st.cash + totalCost
              positions := if newQty ≤ 0 then delKey s pos1 else pos1
              trades := st.trades ++ [⟨s, Side.sell, qty, price, totalCost⟩] })

/-- `computePositionsValue()` from `src/unnamed/part_001` lines 104–112:
`Number(localPrices[sym]) || 0` — a symbol without a known price contributes
`0` (the comment in the source says "Symbols without a price are considered
worthless"). -/
def computePositionsValue (px : String → Option ℚ) (m : SMap) : ℚ :=
  (m.map (fun e => (px e.1).getD 0 * e.2)).sum

/-- `pushEquityPoint()` from `src/unnamed/part_001` lines 235–244 with the
point supplied: push, then `if (length > 5000) shift()`. -/
def pushEquityPoint (hist : List EqPoint) (pt : EqPoint) : List EqPoint :=
  let h1 := hist ++ [pt]
  if 5000 < h1.length then h1.tail else h1

end PartOne

namespace AppJs

/-- One entry of `localTrades` in `src/app.js` (no `total`, no pnl). -/
structure Trade where
  symbol : String
  side : Side
  qty : ℚ
  price : ℚ
deriving DecidableEq, Repr

/-- The local ledger globals of `src/app.js`. -/
structure State where
  cash : ℚ
  positions : SMap
  trades : List Trade
deriving DecidableEq, Repr

/-- The `manualTradeForm` submit handler of `src/app.js` lines 889–960,
restricted to the local ledger (the backend POST is fire-and-forget and its
outcome is ignored).  Note the SELL path assigns
`localPositions[symbol] = prev - qty` and never deletes the key. -/
def manualTrade (px : String → Option ℚ) (st : State) (s : String) (side : Side)
    (qty : ℚ) : Option TradeErr × State :=
  if s = "" ∨ ¬ 0 < qty then (some TradeErr.invalidQuantity, st)
  else
    match px s with
    | none => (some TradeErr.priceUnavailable, st)
    | some price =>
      let cost := price * qty
      if side = Side.buy ∧ cost > st.cash then (some TradeErr.insufficientCash, st)
      else if side = Side.sell ∧ qty > heldQty s st.positions then
        (some TradeErr.insufficientHoldings, st)
      else
        let trades1 := st.trades ++ [⟨s, side, qty, price⟩]
        match side with
        | Side.buy =>
          (none, { cash := st.cash - cost
                   positions := setKey s (heldQty s st.positions + qty) st.positions
                   trades := trades1 })
        | Side.sell =>
          (none, { cash := st.cash + cost
                   positions := setKey s (heldQty s st.positions - qty) st.positions
                   trades := trades1 })

end AppJs

namespace PartZero

/-- A `simPositions` entry of `src/unnamed/part_000`: `{qty, avgCost}`. -/
structure Pos where
  qty : ℚ
  avgCost : ℚ
deriving DecidableEq, Repr

/-- A `simTradeLog` entry of `src/unnamed/part_000` (no pnl field). -/
structure Trade where
  symbol : String
  side : Side
  qty : ℚ
  price : ℚ
deriving DecidableEq, Repr

/-- The simulator globals of `src/unnamed/part_000`: `simCash`,
`simPositions`, `simRealizedPnl`, `simTradeLog`. -/
structure State where
  cash : ℚ
  positions : List (String × Pos)
  realizedPnl : ℚ
  trades : List Trade
deriving DecidableEq, Repr

/-- The BUY branch of `simulateStep` (`src/unnamed/part_000` lines 210–222)
with the chosen symbol, price and quantity as parameters. -/
def simBuy (st : State) (s : String) (price qty : ℚ) : State :=
  let positions1 :=
    match lookupKey s st.positions with
    | some pos =>
      setKey s (Pos.mk (pos.qty + qty) ((pos.qty * pos.avgCost + qty * price) / (pos.qty + qty)))
        st.positions
    | none => setKey s (Pos.mk qty price) st.positions
  { st with
    cash := st.cash - qty * price
    positions := positions1
    trades := st.trades ++ [⟨s, Side.buy, qty, price⟩] }

/-- The SELL branch of `simulateStep` (`src/unnamed/part_000` lines 223–232):
sells the entire position if one with positive quantity exists, accumulating
`simRealizedPnl += qty * (price - avgCost)` and deleting the position. -/
def simSell (st : State) (s : String) (price : ℚ) : State :=
  match lookupKey s st.positions with
  | some pos =>
    if 0 < pos.qty then
      { st with
        cash := st.cash + pos.qty * price
        realizedPnl := st.realizedPnl + pos.qty * (price - pos.avgCost)
        trades := st.trades ++ [⟨s, Side.sell, pos.qty, price⟩]
        positions := delKey s st.positions }
    else st
  | none => st

/-- `simWatchlist.find(...)?.price || pos.avgCost` from `src/unnamed/part_000`
line 239: the watchlist price when known and non-zero, the position's average
cost otherwise. -/
def currentPrice (watch : String → Option ℚ) (s : String) (pos : Pos) : ℚ :=
  match watch s with
  | some p => if p = 0 then pos.avgCost else p
  | none => pos.avgCost

/-- The positions-value sum of `simulateStep` (`src/unnamed/part_000`
lines 234–242). -/
def positionsValue (watch : String → Option ℚ) (l : List (String × Pos)) : ℚ :=
  (l.map (fun e => e.2.qty * currentPrice watch e.1 e.2)).sum

/-- The unrealized-PnL sum of `simulateStep` (`src/unnamed/part_000`
lines 234–242). -/
def unrealizedPnl (watch : String → Option ℚ) (l : List (String × Pos)) : ℚ :=
  (l.map (fun e => e.2.qty * (currentPrice watch e.1 e.2 - e.2.avgCost))).sum

/-- The equity-history push of `simulateStep` (`src/unnamed/part_000`
lines 243–248): push, then `if (length > 60) shift()`. -/
def pushEquity (hist : List EqPoint) (pt : EqPoint) : List EqPoint :=
  let h1 := hist ++ [pt]
  if 60 < h1.length then h1.tail else h1

end PartZero

/-- A JavaScript `number` as far as the deposit handlers need it: NaN, the two
infinities, or a finite value. -/
inductive JsNum
  | nan
  | inf
  | ninf
  | fin (q : ℚ)
deriving DecidableEq, Repr

namespace JsNum

/-- `isNaN(x)`. -/
def isNaN : JsNum → Bool
  | nan => true
  | _ => false

/-- `x <= 0` with IEEE comparison semantics (`NaN <= 0` is false). -/
def leZero : JsNum → Bool
  | nan => false
  | inf => false
  | ninf => true
  | fin q => decide (q ≤ 0)

/-- `x > 0` with IEEE comparison semantics (`NaN > 0` is false). -/
def gtZero : JsNum → Bool
  | nan => false
  | inf => true
  | ninf => false
  | fin q => decide (0 < q)

/-- IEEE addition on the modelled values. -/
def add : JsNum → JsNum → JsNum
  | nan, _ => nan
  | _, nan => nan
  | inf, ninf => nan
  | ninf, inf => nan
  | inf, _ => inf
  | _, inf => inf
  | ninf, _ => ninf
  | _, ninf => ninf
  | fin a, fin b => fin (a + b)

/-- `isFinite(x)`. -/
def isFinite : JsNum → Bool
  | fin _ => true
  | _ => false

end JsNum

namespace PartOne

/-- The ledger of `src/unnamed/part_001` with `localCash` kept as a raw JS
number, for the deposit handler whose NaN/Infinity behaviour matters. -/
structure StateJ where
  cash : JsNum
  positions : SMap
  trades : List Trade
deriving DecidableEq, Repr

/-- `handleAddBalance()` from `src/unnamed/part_001` lines 320–331 with the
parsed input amount as parameter: `if (isNaN(amt) || amt <= 0)` reject with a
toast (no-op), else `localCash += amt`. -/
def handleAddBalance (st : StateJ) (amt : JsNum) : Option Unit × StateJ :=
  if amt.isNaN || amt.leZero then (some Unit.unit, st)
  else (none, { st with cash := st.cash.add amt })

end PartOne

namespace PartTwo

/-- The `addApply` click handler of `wirePresets()` (`src/unnamed/part_002`
lines 52–55) with the chosen amount as parameter: `if (amt > 0) cash += amt`,
silently a no-op otherwise. -/
def presetAdd (cash : JsNum) (amt : JsNum) : JsNum :=
  if amt.gtZero then cash.add amt else cash

end PartTwo

/-- Every position entry of the map has positive quantity. -/
def PosQtyPos (l : SMap) : Prop := ∀ e ∈ l, 0 < e.2

theorem heldQty_nonneg {s : String} {l : SMap} (h : PosQtyPos l) : 0 ≤ heldQty s l := by
  unfold heldQty
  cases hl : lookupKey s l with
  | none => simp
  | some v => simpa using le_of_lt (h _ (lookupKey_mem hl))

namespace PartTwo

/-- A ledger operation of the Phase 1.4 script: a (finite) starting-balance
addition through `wirePresets`, or a trade submitted through the trade form,
carrying the price map in effect at submit time. -/
inductive Op
  | deposit (amt : ℚ)
  | trade (px : String → Option ℚ) (s : String) (side : Side) (qty : ℚ)

/-- Apply one operation; a rejected operation leaves the state as the handler
left it (which the theorems show is the input state). -/
def step (symbols : List String) (st : State) : Op → State
  | Op.deposit amt => if 0 < amt then { st with cash := st.cash + amt } else st
  | Op.trade px s side qty => (tradeForm symbols px st s side qty).2

/-- Apply a sequence of operations in order. -/
def run (symbols : List String) : State → List Op → State :=
  List.foldl (step symbols)

/-- All prices a trade operation can see are positive. -/
def Op.pricesPos : Op → Prop
  | Op.deposit _ => True
  | Op.trade px _ _ _ => ∀ s p, px s = some p → 0 < p

theorem canBuy_none_iff {px : String → Option ℚ} {st : State} {s : String} {qty p : ℚ}
    (hpx : px s = some p) (hp : p ≠ 0) :
    canBuy px st s qty = none ↔ p * qty ≤ st.cash + epsCash := by
  simp [canBuy, hpx, hp, not_lt]

theorem canSell_none_iff {st : State} {s : String} {qty : ℚ} :
    canSell st s qty = none ↔ qty ≤ heldQty s st.positions + epsQty := by
  simp [canSell, not_lt]

theorem executeTrade_cash_lb {px : String → Option ℚ} {st : State} {s : String}
    {side : Side} {qty : ℚ} (hq : 0 < qty) (hpos : ∀ t p, px t = some p → 0 < p)
    (h : -epsCash ≤ st.cash) : -epsCash ≤ (executeTrade px st s side qty).2.cash := by
  unfold executeTrade
  cases hpx : px s with
  | none => exact h
  | some p =>
    have hp : 0 < p := hpos s p hpx
    simp only [if_neg (ne_of_gt hp)]
    cases side with
    | buy =>
      cases hcb : canBuy px st s qty with
      | some e => exact h
      | none =>
        have hle : p * qty ≤ st.cash + epsCash :=
          (canBuy_none_iff hpx (ne_of_gt hp)).mp hcb
        simp only
        linarith
    | sell =>
      cases hcs : canSell st s qty with
      | some e => exact h
      | none =>
        have : 0 < p * qty := mul_pos hp hq
        simp only
        linarith

theorem step_cash_lb (symbols : List String) (st : State) (op : Op)
    (hpos : op.pricesPos) (h : -epsCash ≤ st.cash) :
    -epsCash ≤ (step symbols st op).cash := by
  cases op with
  | deposit amt =>
    simp only [step]
    split
    · simp only
      linarith
    · exact h
  | trade px s side qty =>
    simp only [step, tradeForm]
    split
    · exact h
    · split
      · exact h
      · next hq => exact executeTrade_cash_lb (not_not.mp (by simpa using hq)) hpos h

theorem run_cash_lb (symbols : List String) (st : State) (ops : List Op)
    (hpos : ∀ op ∈ ops, op.pricesPos) (h : -epsCash ≤ st.cash) :
    -epsCash ≤ (run symbols st ops).cash := by
  induction ops generalizing st with
  | nil => exact h
  | cons op rest ih =>
    exact ih (step symbols st op) (fun o ho => hpos o (List.mem_cons_of_mem _ ho))
      (step_cash_lb symbols st op (hpos op (List.mem_cons_self _ _)) h)

theorem executeTrade_posQtyPos {px : String → Option ℚ} {st : State} {s : String}
    {side : Side} {qty : ℚ} (hq : 0 < qty) (h : PosQtyPos st.positions) :
    PosQtyPos (executeTrade px st s side qty).2.positions := by
  unfold executeTrade
  cases hpx : px s with
  | none => exact h
  | some p =>
    by_cases hp : p = 0
    · simp only [if_pos hp]
      exact h
    · simp only [if_neg hp]
      cases side with
      | buy =>
        cases hcb : canBuy px st s qty with
        | some e => exact h
        | none =>
          intro e he
          rcases mem_setKey he with rfl | he2
          · have := heldQty_nonneg (s := s) h
            simp only
            linarith
          · exact h e he2
      | sell =>
        cases hcs : canSell st s qty with
        | some e => exact h
        | none =>
          simp only
          split
          · intro e he
            rw [delKey_setKey] at he
            exact h e ((delKey_sublist s st.positions).subset he)
          · next hkeep =>
            intro e he
            rcases mem_setKey he with rfl | he2
            · simp only
              have : epsQty < heldQty s st.positions - qty := lt_of_not_le (by simpa using hkeep)
              have heps : (0:ℚ) < epsQty := by norm_num [epsQty]
              linarith
            · exact h e he2

theorem step_posQtyPos (symbols : List String) (st : State) (op : Op)
    (h : PosQtyPos st.positions) : PosQtyPos (step symbols st op).positions := by
  cases op with
  | deposit amt =>
    simp only [step]
    split <;> exact h
  | trade px s side qty =>
    simp only [step, tradeForm]
    split
    · exact h
    · split
      · exact h
      · next hq => exact executeTrade_posQtyPos (not_not.mp (by simpa using hq)) h

theorem run_posQtyPos (symbols : List String) (st : State) (ops : List Op)
    (h : PosQtyPos st.positions) : PosQtyPos (run symbols st ops).positions := by
  induction ops generalizing st with
  | nil => exact h
  | cons op rest ih => exact ih (step symbols st op) (step_posQtyPos symbols st op h)

end PartTwo

namespace PartOne

/-- A ledger operation of the Phase 1.2 script: a (finite) balance addition
through `handleAddBalance`, or a manual trade, carrying the resolved price
map in effect at submit time. -/
inductive Op
  | deposit (amt : ℚ)
  | trade (px : String → Option ℚ) (s : String) (side : Side) (qty : ℚ)

/-- Apply one operation (a finite deposit `amt` passes `handleAddBalance`'s
check exactly when `0 < amt`). -/
def step (symbols : List String) (st : State) : Op → State
  | Op.deposit amt => if 0 < amt then { st with cash := st.cash + amt } else st
  | Op.trade px s side qty => (handleManualTrade symbols px st s side qty).2

/-- Apply a sequence of operations in order. -/
def run (symbols : List String) : State → List Op → State :=
  List.foldl (step symbols)

/-- All prices a trade operation can see are positive. -/
def Op.pricesPos : Op → Prop
  | Op.deposit _ => True
  | Op.trade px _ _ _ => ∀ s p, px s = some p → 0 < p

theorem trade_cash_nonneg {symbols : List String} {px : String → Option ℚ} {st : State}
    {s : String} {side : Side} {qty : ℚ} (hpos : ∀ t p, px t = some p → 0 < p)
    (h : 0 ≤ st.cash) : 0 ≤ (handleManualTrade symbols px st s side qty).2.cash := by
  unfold handleManualTrade
  split
  · exact h
  · split
    · exact h
    · next hq =>
      have hq' : 0 < qty := not_not.mp hq
      cases hpx : px s with
      | none => exact h
      | some price =>
        have hp : 0 < price := hpos s price hpx
        cases side with
        | buy =>
          simp only
          split
          · exact h
          · next hc =>
            have : price * qty ≤ st.cash := not_lt.mp hc
            simp only
            linarith
        | sell =>
          simp only
          split
          · exact h
          · have : 0 < price * qty := mul_pos hp hq'
            simp only
            linarith

theorem step_cash_nonneg (symbols : List String) (st : State) (op : Op)
    (hpos : op.pricesPos) (h : 0 ≤ st.cash) : 0 ≤ (step symbols st op).cash := by
  cases op with
  | deposit amt =>
    simp only [step]
    split
    · simp only
      linarith
    · exact h
  | trade px s side qty => exact trade_cash_nonneg hpos h

theorem run_cash_nonneg (symbols : List String) (st : State) (ops : List Op)
    (hpos : ∀ op ∈ ops, op.pricesPos) (h : 0 ≤ st.cash) :
    0 ≤ (run symbols st ops).cash := by
  induction ops generalizing st with
  | nil => exact h
  | cons op rest ih =>
    exact ih (step symbols st op) (fun o ho => hpos o (List.mem_cons_of_mem _ ho))
      (step_cash_nonneg symbols st op (hpos op (List.mem_cons_self _ _)) h)

theorem trade_posQtyPos {symbols : List String} {px : String → Option ℚ} {st : State}
    {s : String} {side : Side} {qty : ℚ} (h : PosQtyPos st.positions) :
    PosQtyPos (handleManualTrade symbols px st s side qty).2.positions := by
  unfold handleManualTrade
  split
  · exact h
  · split
    · exact h
    · next hq =>
      have hq' : 0 < qty := not_not.mp hq
      cases hpx : px s with
      | none => exact h
      | some price =>
        cases side with
        | buy =>
          simp only
          split
          · exact h
          · intro e he
            rcases mem_setKey he with rfl | he2
            · have := heldQty_nonneg (s := s) h
              simp only
              linarith
            · exact h e he2
        | sell =>
          simp only
          split
          · exact h
          · simp only
            split
            · intro e he
              rw [delKey_setKey] at he
              exact h e ((delKey_sublist s st.positions).subset he)
            · next hkeep =>
              intro e he
              rcases mem_setKey he with rfl | he2
              · simp only
                exact lt_of_not_le hkeep
              · exact h e he2

theorem step_positions_pos (symbols : List String) (st : State) (op : Op)
    (h : PosQtyPos st.positions) : PosQtyPos (step symbols st op).positions := by
  cases op with
  | deposit amt =>
    simp only [step]
    split <;> exact h
  | trade px s side qty => exact trade_posQtyPos h

theorem run_positions_pos (symbols : List String) (st : State) (ops : List Op)
    (h : PosQtyPos st.positions) : PosQtyPos (run symbols st ops).positions := by
  induction ops generalizing st with
  | nil => exact h
  | cons op rest ih => exact ih (step symbols st op) (step_positions_pos symbols st op h)

end PartOne

theorem PartTwo.executeTrade_reject_frame {px : String → Option ℚ} {st : PartTwo.State}
    {s : String} {side : Side} {qty : ℚ} {e : TradeErr} :
    (PartTwo.executeTrade px st s side qty).1 = some e →
    (PartTwo.executeTrade px st s side qty).2 = st := by
  unfold PartTwo.executeTrade
  cases hpx : px s with
  | none => intro _; rfl
  | some p =>
    by_cases hp : p = 0
    · simp only [if_pos hp]
      intro _
      trivial
    · simp only [if_neg hp]
      cases side with
      | buy =>
        cases hcb : PartTwo.canBuy px st s qty with
        | some e2 => intro _; rfl
        | none => intro h; simp at h
      | sell =>
        cases hcs : PartTwo.canSell st s qty with
        | some e2 => intro _; rfl
        | none => intro h; simp at h

theorem PartTwo.tradeForm_reject_frame {symbols : List String} {px : String → Option ℚ}
    {st : PartTwo.State} {s : String} {side : Side} {qty : ℚ} {e : TradeErr} :
    (PartTwo.tradeForm symbols px st s side qty).1 = some e →
    (PartTwo.tradeForm symbols px st s side qty).2 = st := by
  unfold PartTwo.tradeForm
  split
  · intro _; rfl
  · split
    · intro _; rfl
    · exact PartTwo.executeTrade_reject_frame

theorem PartOne.trade_reject_frame {symbols : List String} {px : String → Option ℚ}
    {st : PartOne.State} {s : String} {side : Side} {qty : ℚ} {e : TradeErr} :
    (PartOne.handleManualTrade symbols px st s side qty).1 = some e →
    (PartOne.handleManualTrade symbols px st s side qty).2 = st := by
  unfold PartOne.handleManualTrade
  split
  · intro _; rfl
  · split
    · intro _; rfl
    · cases hpx : px s with
      | none => intro _; rfl
      | some price =>
        cases side with
        | buy =>
          simp only
          split
          · intro _; rfl
          · intro h; simp at h
        | sell =>
          simp only
          split
          · intro _; rfl
          · intro h; simp at h

theorem AppJs.manualTrade_reject_frame {px : String → Option ℚ} {st : AppJs.State} {s : String}
    {side : Side} {qty : ℚ} {e : TradeErr} :
    (AppJs.manualTrade px st s side qty).1 = some e →
    (AppJs.manualTrade px st s side qty).2 = st := by
  unfold AppJs.manualTrade
  split
  · intro _; rfl
  · cases hpx : px s with
    | none => intro _; rfl
    | some price =>
      simp only
      split
      · intro _; rfl
      · split
        · intro _; rfl
        · cases side with
          | buy => intro h; simp at h
          | sell => intro h; simp at h

theorem PartOne.buy_accept_le {symbols : List String} {px : String → Option ℚ}
    {st : PartOne.State} {s : String} {qty p : ℚ} (hpx : px s = some p)
    (h : (PartOne.handleManualTrade symbols px st s Side.buy qty).1 = none) :
    p * qty ≤ st.cash := by
  unfold PartOne.handleManualTrade at h
  split at h
  · simp at h
  · split at h
    · simp at h
    · simp only [hpx] at h
      split at h
      · simp at h
      · next hc => exact not_lt.mp hc

theorem PartTwo.buy_accept_le_eps {symbols : List String} {px : String → Option ℚ}
    {st : PartTwo.State} {s : String} {qty p : ℚ} (hpx : px s = some p)
    (h : (PartTwo.tradeForm symbols px st s Side.buy qty).1 = none) :
    p * qty ≤ st.cash + PartTwo.epsCash := by
  unfold PartTwo.tradeForm at h
  split at h
  · simp at h
  · split at h
    · simp at h
    · unfold PartTwo.executeTrade at h
      simp only [hpx] at h
      split at h
      · simp at h
      · next hp =>
        cases hcb : PartTwo.canBuy px st s qty with
        | some e =>
          simp only [hcb] at h
          simp at h
        | none => exact (PartTwo.canBuy_none_iff hpx hp).mp hcb

/-- C1 counterexample: in part_002, `canBuy` accepts a BUY whose notional
exceeds the available cash by up to the `1e-9` epsilon, so an accepted BUY can
leave the cash balance strictly negative: with cash 0 and price 1, buying
quantity `1/2000000000` (notional `5e-10 ≤ 0 + 1e-9`) is accepted and leaves
cash `= -5e-10 < 0`. -/
theorem claim_C1_counterexample :
    (PartTwo.tradeForm ["E"] (fun _ => some 1) (PartTwo.State.mk 0 [] [] []) "E" Side.buy
      (1 / 2000000000)).1 = none ∧
    (PartTwo.tradeForm ["E"] (fun _ => some 1) (PartTwo.State.mk 0 [] [] []) "E" Side.buy
      (1 / 2000000000)).2.cash < 0 := by
  constructor <;>
    norm_num [PartTwo.tradeForm, PartTwo.executeTrade, PartTwo.canBuy, PartTwo.epsCash,
      heldQty, lookupKey, PartTwo.avgCost]

/-- C1 (amended): in part_001, starting from cash ≥ 0, every sequence of
deposits and trades (with positive quotes) keeps cash ≥ 0, and a BUY is
accepted only when its notional does not exceed the available cash.  In
part_002 the BUY check tolerates the `1e-9` epsilon: a BUY is accepted only
when the notional is ≤ cash + 1e-9, and consequently every operation sequence
keeps cash ≥ −1e-9 (not ≥ 0, see the counterexample). -/
theorem claim_C1 :
    (∀ (symbols : List String) (st : PartOne.State) (ops : List PartOne.Op),
      (∀ op ∈ ops, op.pricesPos) → 0 ≤ st.cash → 0 ≤ (PartOne.run symbols st ops).cash) ∧
    (∀ (symbols : List String) (px : String → Option ℚ) (st : PartOne.State) (s : String)
        (qty p : ℚ), px s = some p →
      (PartOne.handleManualTrade symbols px st s Side.buy qty).1 = none →
        p * qty ≤ st.cash) ∧
    (∀ (symbols : List String) (st : PartTwo.State) (ops : List PartTwo.Op),
      (∀ op ∈ ops, op.pricesPos) → -PartTwo.epsCash ≤ st.cash →
        -PartTwo.epsCash ≤ (PartTwo.run symbols st ops).cash) ∧
    (∀ (symbols : List String) (px : String → Option ℚ) (st : PartTwo.State) (s : String)
        (qty p : ℚ), px s = some p →
      (PartTwo.tradeForm symbols px st s Side.buy qty).1 = none →
        p * qty ≤ st.cash + PartTwo.epsCash) :=
  ⟨fun symbols st ops hpos h => PartOne.run_cash_nonneg symbols st ops hpos h,
   fun _ _ _ _ _ _ hpx h => PartOne.buy_accept_le hpx h,
   fun symbols st ops hpos h => PartTwo.run_cash_lb symbols st ops hpos h,
   fun _ _ _ _ _ _ hpx h => PartTwo.buy_accept_le_eps hpx h⟩

/-- Witness for C1: concrete instantiations — a deposit of 10 then an accepted
buy of 3 units at price 2 from cash 10 in part_001 keeps cash ≥ 0 and implies
the notional bound, and likewise in part_002. -/
theorem claim_C1_witness :
    0 ≤ (PartOne.run ["E"] (PartOne.State.mk 5 [] [])
      [PartOne.Op.deposit 10]).cash ∧
    (2:ℚ) * 3 ≤ (10:ℚ) ∧
    -PartTwo.epsCash ≤ (PartTwo.run ["E"] (PartTwo.State.mk 5 [] [] [])
      [PartTwo.Op.deposit 10]).cash ∧
    (2:ℚ) * 3 ≤ (10:ℚ) + PartTwo.epsCash := by
  refine ⟨?_, ?_, ?_, ?_⟩
  · exact claim_C1.1 ["E"] (PartOne.State.mk 5 [] []) [PartOne.Op.deposit 10]
      (by intro op hop; simp at hop; subst hop; trivial) (by norm_num)
  · exact claim_C1.2.1 ["E"] (fun _ => some 2) (PartOne.State.mk 10 [] []) "E" 3 2 rfl
      (by norm_num [PartOne.handleManualTrade, heldQty, lookupKey])
  · exact claim_C1.2.2.1 ["E"] (PartTwo.State.mk 5 [] [] []) [PartTwo.Op.deposit 10]
      (by intro op hop; simp at hop; subst hop; trivial) (by norm_num [PartTwo.epsCash])
  · exact claim_C1.2.2.2 ["E"] (fun _ => some 2) (PartTwo.State.mk 10 [] [] []) "E" 3 2 rfl
      (by norm_num [PartTwo.tradeForm, PartTwo.executeTrade, PartTwo.canBuy,
        PartTwo.epsCash, heldQty, lookupKey, PartTwo.avgCost])

theorem PartTwo.sell_removes {px : String → Option ℚ} {st : PartTwo.State} {s : String}
    {qty : ℚ} (hnd : keysNodup st.positions)
    (h : (PartTwo.executeTrade px st s Side.sell qty).1 = none)
    (hz : heldQty s st.positions - qty ≤ PartTwo.epsQty) :
    lookupKey s (PartTwo.executeTrade px st s Side.sell qty).2.positions = none := by
  unfold PartTwo.executeTrade at h ⊢
  cases hpx : px s with
  | none => simp [hpx] at h
  | some p =>
    simp only [hpx] at h ⊢
    by_cases hp : p = 0
    · simp [hp] at h
    · simp only [if_neg hp] at h ⊢
      cases hcs : PartTwo.canSell st s qty with
      | some e => simp [hcs] at h
      | none =>
        simp only [hcs]
        split
        · rw [delKey_setKey]
          exact lookupKey_delKey_self s _ hnd
        · next hkeep => exact absurd hz hkeep

theorem PartOne.manual_sell_removes {symbols : List String} {px : String → Option ℚ}
    {st : PartOne.State} {s : String} {qty : ℚ} (hnd : keysNodup st.positions)
    (h : (PartOne.handleManualTrade symbols px st s Side.sell qty).1 = none)
    (hz : heldQty s st.positions - qty ≤ 0) :
    lookupKey s (PartOne.handleManualTrade symbols px st s Side.sell qty).2.positions
      = none := by
  unfold PartOne.handleManualTrade at h ⊢
  split at h
  · simp at h
  · next hs =>
    rw [if_neg hs]
    split at h
    · simp at h
    · next hq =>
      rw [if_neg hq]
      cases hpx : px s with
      | none => simp [hpx] at h
      | some p =>
        simp only [hpx] at h ⊢
        split at h
        · simp at h
        · next hheld =>
          rw [if_neg hheld]
          simp only
          split
          · rw [delKey_setKey]
            exact lookupKey_delKey_self s _ hnd
          · next hkeep => exact absurd hz hkeep

/-- C2 counterexample: in the app.js `manualTradeForm` handler a SELL of the
entire position is accepted but leaves the key with quantity 0 in the
positions mapping instead of removing it: from positions `{E: 1}`, selling 1
yields positions with `lookupKey "E" = some 0`. -/
theorem claim_C2_counterexample :
    (AppJs.manualTrade (fun _ => some 5) (AppJs.State.mk 100 [("E", 1)] []) "E" Side.sell
      1).1 = none ∧
    lookupKey "E" (AppJs.manualTrade (fun _ => some 5) (AppJs.State.mk 100 [("E", 1)] [])
      "E" Side.sell 1).2.positions = some 0 := by
  constructor
  · norm_num [AppJs.manualTrade, heldQty, lookupKey, setKey]
    decide
  · norm_num [AppJs.manualTrade, heldQty, lookupKey, setKey]

/-- C2 (amended): in the part_002 and part_001 ledgers, every reachable state
(from a state whose position quantities are positive, under any operation
sequence) has only positive-quantity position entries, an accepted part_002
SELL that leaves at most the `1e-12` epsilon removes the symbol's key, and an
accepted part_001 SELL that reaches exactly zero removes the symbol's key.
In the app.js handler the property fails (see the counterexample): a full
SELL leaves a zero-quantity entry. -/
theorem claim_C2 :
    (∀ (symbols : List String) (st : PartTwo.State) (ops : List PartTwo.Op),
      PosQtyPos st.positions → PosQtyPos (PartTwo.run symbols st ops).positions) ∧
    (∀ (symbols : List String) (st : PartOne.State) (ops : List PartOne.Op),
      PosQtyPos st.positions → PosQtyPos (PartOne.run symbols st ops).positions) ∧
    (∀ (px : String → Option ℚ) (st : PartTwo.State) (s : String) (qty : ℚ),
      keysNodup st.positions →
      (PartTwo.executeTrade px st s Side.sell qty).1 = none →
      heldQty s st.positions - qty ≤ PartTwo.epsQty →
      lookupKey s (PartTwo.executeTrade px st s Side.sell qty).2.positions = none) ∧
    (∀ (symbols : List String) (px : String → Option ℚ) (st : PartOne.State) (s : String)
        (qty : ℚ), keysNodup st.positions →
      (PartOne.handleManualTrade symbols px st s Side.sell qty).1 = none →
      heldQty s st.positions - qty ≤ 0 →
      lookupKey s (PartOne.handleManualTrade symbols px st s Side.sell qty).2.positions
        = none) :=
  ⟨fun symbols st ops h => PartTwo.run_posQtyPos symbols st ops h,
   fun symbols st ops h => PartOne.run_positions_pos symbols st ops h,
   fun _ _ _ _ hnd h hz => PartTwo.sell_removes hnd h hz,
   fun _ _ _ _ _ hnd h hz => PartOne.manual_sell_removes hnd h hz⟩

/-- Witness for C2: concrete instantiations — position maps `{E: 2}` stay
positive under an empty operation sequence, and concrete full sells remove
the key in part_002 and part_001. -/
theorem claim_C2_witness :
    PosQtyPos (PartTwo.run ["E"] (PartTwo.State.mk 9 [("E", 2)] [("E", 3)] [])
      []).positions ∧
    PosQtyPos (PartOne.run ["E"] (PartOne.State.mk 9 [("E", 2)] []) []).positions ∧
    lookupKey "E" (PartTwo.executeTrade (fun _ => some 2)
      (PartTwo.State.mk 0 [("E", 1)] [("E", 3)] []) "E" Side.sell 1).2.positions = none ∧
    lookupKey "E" (PartOne.handleManualTrade ["E"] (fun _ => some 2)
      (PartOne.State.mk 0 [("E", 1)] []) "E" Side.sell 1).2.positions = none := by
  refine ⟨?_, ?_, ?_, ?_⟩
  · exact claim_C2.1 ["E"] (PartTwo.State.mk 9 [("E", 2)] [("E", 3)] []) []
      (by intro e he; simp at he; subst he; norm_num)
  · exact claim_C2.2.1 ["E"] (PartOne.State.mk 9 [("E", 2)] []) []
      (by intro e he; simp at he; subst he; norm_num)
  · exact claim_C2.2.2.1 (fun _ => some 2) (PartTwo.State.mk 0 [("E", 1)] [("E", 3)] [])
      "E" 1 (by simp [keysNodup, mapKeys])
      (by norm_num [PartTwo.executeTrade, PartTwo.canSell, PartTwo.epsQty, heldQty,
        lookupKey, PartTwo.avgCost])
      (by norm_num [heldQty, lookupKey, PartTwo.epsQty])
  · exact claim_C2.2.2.2 ["E"] (fun _ => some 2) (PartOne.State.mk 0 [("E", 1)] [])
      "E" 1 (by simp [keysNodup, mapKeys])
      (by norm_num [PartOne.handleManualTrade, heldQty, lookupKey])
      (by norm_num [heldQty, lookupKey])

/-- C3: a rejected trade — invalid symbol or quantity, unavailable price,
insufficient cash or insufficient holdings — leaves the ledger state (cash,
positions, positionsMeta where present, and trade history) exactly unchanged,
in all three trade handlers: the part_002 trade form with `executeTrade`, the
part_001 `handleManualTrade`, and the app.js `manualTradeForm` handler. -/
theorem claim_C3 :
    (∀ (symbols : List String) (px : String → Option ℚ) (st : PartTwo.State) (s : String)
        (side : Side) (qty : ℚ) (e : TradeErr),
      (PartTwo.tradeForm symbols px st s side qty).1 = some e →
        (PartTwo.tradeForm symbols px st s side qty).2 = st) ∧
    (∀ (symbols : List String) (px : String → Option ℚ) (st : PartOne.State) (s : String)
        (side : Side) (qty : ℚ) (e : TradeErr),
      (PartOne.handleManualTrade symbols px st s side qty).1 = some e →
        (PartOne.handleManualTrade symbols px st s side qty).2 = st) ∧
    (∀ (px : String → Option ℚ) (st : AppJs.State) (s : String) (side : Side) (qty : ℚ)
        (e : TradeErr),
      (AppJs.manualTrade px st s side qty).1 = some e →
        (AppJs.manualTrade px st s side qty).2 = st) :=
  ⟨fun _ _ _ _ _ _ _ => PartTwo.tradeForm_reject_frame,
   fun _ _ _ _ _ _ _ => PartOne.trade_reject_frame,
   fun _ _ _ _ _ _ => AppJs.manualTrade_reject_frame⟩

/-- Witness for C3: concrete rejected trades (price unavailable for part_002
and part_001; insufficient cash for app.js) leave the concrete states
unchanged. -/
theorem claim_C3_witness :
    (PartTwo.tradeForm ["E"] (fun _ => none)
      (PartTwo.State.mk 100 [] [] []) "E" Side.buy 1).2 = PartTwo.State.mk 100 [] [] [] ∧
    (PartOne.handleManualTrade ["E"] (fun _ => none)
      (PartOne.State.mk 50 [] []) "E" Side.sell 2).2 = PartOne.State.mk 50 [] [] ∧
    (AppJs.manualTrade (fun _ => some 10)
      (AppJs.State.mk 5 [] []) "E" Side.buy 1).2 = AppJs.State.mk 5 [] [] :=
  ⟨claim_C3.1 ["E"] (fun _ => none) (PartTwo.State.mk 100 [] [] []) "E" Side.buy 1
      TradeErr.priceUnavailable (by decide),
   claim_C3.2.1 ["E"] (fun _ => none) (PartOne.State.mk 50 [] []) "E" Side.sell 2
      TradeErr.priceUnavailable (by decide),
   claim_C3.2.2 (fun _ => some 10) (AppJs.State.mk 5 [] []) "E" Side.buy 1
      TradeErr.insufficientCash (by norm_num [AppJs.manualTrade]; decide)⟩

theorem PartTwo.buy_result {px : String → Option ℚ} {st : PartTwo.State} {s : String}
    {qty p : ℚ} (hpx : px s = some p)
    (h : (PartTwo.executeTrade px st s Side.buy qty).1 = none) :
    (PartTwo.executeTrade px st s Side.buy qty).2 =
      { cash := st.cash - p * qty
        positions := setKey s (heldQty s st.positions + qty) st.positions
        positionsMeta := setKey s
          (if 0 < heldQty s st.positions + qty
           then ((PartTwo.avgCost st s).getD p * heldQty s st.positions + p * qty) /
             (heldQty s st.positions + qty)
           else p) st.positionsMeta
        trades := PartTwo.Trade.mk s Side.buy qty p (p * qty) none :: st.trades } := by
  unfold PartTwo.executeTrade at h ⊢
  simp only [hpx] at h ⊢
  by_cases hp : p = 0
  · simp [hp] at h
  · simp only [if_neg hp] at h ⊢
    cases hcb : PartTwo.canBuy px st s qty with
    | some e => simp [hcb] at h
    | none => simp only [hcb]

theorem PartTwo.sell_result {px : String → Option ℚ} {st : PartTwo.State} {s : String}
    {qty p : ℚ} (hpx : px s = some p)
    (h : (PartTwo.executeTrade px st s Side.sell qty).1 = none) :
    (PartTwo.executeTrade px st s Side.sell qty).2 =
      { cash := st.cash + p * qty
        positions :=
          if heldQty s st.positions - qty ≤ PartTwo.epsQty
          then delKey s (setKey s (heldQty s st.positions - qty) st.positions)
          else setKey s (heldQty s st.positions - qty) st.positions
        positionsMeta :=
          if heldQty s st.positions - qty ≤ PartTwo.epsQty then delKey s st.positionsMeta
          else st.positionsMeta
        trades := PartTwo.Trade.mk s Side.sell qty p (p * qty)
          (some ((p - (PartTwo.avgCost st s).getD p) * qty)) :: st.trades } := by
  unfold PartTwo.executeTrade at h ⊢
  simp only [hpx] at h ⊢
  by_cases hp : p = 0
  · simp [hp] at h
  · simp only [if_neg hp] at h ⊢
    cases hcs : PartTwo.canSell st s qty with
    | some e => simp [hcs] at h
    | none => simp only [hcs]

theorem PartOne.manual_buy_result {symbols : List String} {px : String → Option ℚ}
    {st : PartOne.State} {s : String} {qty p : ℚ} (hpx : px s = some p)
    (h : (PartOne.handleManualTrade symbols px st s Side.buy qty).1 = none) :
    (PartOne.handleManualTrade symbols px st s Side.buy qty).2 =
      { cash := st.cash - p * qty
        positions := setKey s (heldQty s st.positions + qty) st.positions
        trades := st.trades ++ [PartOne.Trade.mk s Side.buy qty p (p * qty)] } := by
  unfold PartOne.handleManualTrade at h ⊢
  split at h
  · simp at h
  · next hs =>
    rw [if_neg hs]
    split at h
    · simp at h
    · next hq =>
      rw [if_neg hq]
      simp only [hpx] at h ⊢
      split at h
      · simp at h
      · next hc => rw [if_neg hc]

theorem PartOne.manual_sell_result {symbols : List String} {px : String → Option ℚ}
    {st : PartOne.State} {s : String} {qty p : ℚ} (hpx : px s = some p)
    (h : (PartOne.handleManualTrade symbols px st s Side.sell qty).1 = none) :
    (PartOne.handleManualTrade symbols px st s Side.sell qty).2 =
      { cash := st.cash + p * qty
        positions :=
          if heldQty s st.positions - qty ≤ 0
          then delKey s (setKey s (heldQty s st.positions - qty) st.positions)
          else setKey s (heldQty s st.positions - qty) st.positions
        trades := st.trades ++ [PartOne.Trade.mk s Side.sell qty p (p * qty)] } := by
  unfold PartOne.handleManualTrade at h ⊢
  split at h
  · simp at h
  · next hs =>
    rw [if_neg hs]
    split at h
    · simp at h
    · next hq =>
      rw [if_neg hq]
      simp only [hpx] at h ⊢
      split at h
      · simp at h
      · next hheld => rw [if_neg hheld]

theorem AppJs.trade_result {px : String → Option ℚ} {st : AppJs.State} {s : String}
    {side : Side} {qty p : ℚ} (hpx : px s = some p)
    (h : (AppJs.manualTrade px st s side qty).1 = none) :
    (AppJs.manualTrade px st s side qty).2 =
      { cash := match side with
                | Side.buy => st.cash - p * qty
                | Side.sell => st.cash + p * qty
        positions := setKey s
          (match side with
           | Side.buy => heldQty s st.positions + qty
           | Side.sell => heldQty s st.positions - qty) st.positions
        trades := st.trades ++ [AppJs.Trade.mk s side qty p] } := by
  unfold AppJs.manualTrade at h ⊢
  split at h
  · simp at h
  · next hs =>
    rw [if_neg hs]
    simp only [hpx] at h ⊢
    split at h
    · simp at h
    · next hc =>
      rw [if_neg hc]
      split at h
      · simp at h
      · next hh =>
        rw [if_neg hh]
        cases side with
        | buy => rfl
        | sell => rfl

theorem PartZero.simBuy_existing {st : PartZero.State} {s : String} {price qty : ℚ}
    {pos : PartZero.Pos} (hl : lookupKey s st.positions = some pos) :
    lookupKey s (PartZero.simBuy st s price qty).positions =
      some (PartZero.Pos.mk (pos.qty + qty)
        ((pos.qty * pos.avgCost + qty * price) / (pos.qty + qty))) := by
  unfold PartZero.simBuy
  simp only [hl]
  exact lookupKey_setKey_self s _ st.positions

/-- C4: on every accepted BUY into an existing position, part_002's
`executeTrade` recomputes the volume-weighted average cost
`(oldQty*oldAvg + qty*price)/(oldQty + qty)` and sets the quantity to
`oldQty + qty`; two consecutive accepted BUYs of a fresh symbol (q1 at p1,
then q2 at p2) yield quantity `q1+q2` and average cost
`(q1*p1 + q2*p2)/(q1+q2)` exactly (hence within floating-point epsilon); and
the BUY branch of part_000's `simulateStep` applies the same recompute. -/
theorem claim_C4 :
    (∀ (px : String → Option ℚ) (st : PartTwo.State) (s : String) (qty p oldQty oldAvg : ℚ),
      px s = some p → lookupKey s st.positions = some oldQty →
      lookupKey s st.positionsMeta = some oldAvg → 0 < oldQty + qty →
      (PartTwo.executeTrade px st s Side.buy qty).1 = none →
      lookupKey s (PartTwo.executeTrade px st s Side.buy qty).2.positions
          = some (oldQty + qty) ∧
      lookupKey s (PartTwo.executeTrade px st s Side.buy qty).2.positionsMeta
          = some ((oldQty * oldAvg + qty * p) / (oldQty + qty))) ∧
    (∀ (px1 px2 : String → Option ℚ) (st : PartTwo.State) (s : String) (q1 q2 p1 p2 : ℚ),
      lookupKey s st.positions = none → lookupKey s st.positionsMeta = none →
      px1 s = some p1 → px2 s = some p2 → 0 < q1 → 0 < q2 →
      (PartTwo.executeTrade px1 st s Side.buy q1).1 = none →
      (PartTwo.executeTrade px2 (PartTwo.executeTrade px1 st s Side.buy q1).2 s
        Side.buy q2).1 = none →
      lookupKey s (PartTwo.executeTrade px2 (PartTwo.executeTrade px1 st s Side.buy q1).2 s
        Side.buy q2).2.positions = some (q1 + q2) ∧
      lookupKey s (PartTwo.executeTrade px2 (PartTwo.executeTrade px1 st s Side.buy q1).2 s
        Side.buy q2).2.positionsMeta = some ((q1 * p1 + q2 * p2) / (q1 + q2))) ∧
    (∀ (st : PartZero.State) (s : String) (price qty : ℚ) (pos : PartZero.Pos),
      lookupKey s st.positions = some pos →
      lookupKey s (PartZero.simBuy st s price qty).positions =
        some (PartZero.Pos.mk (pos.qty + qty)
          ((pos.qty * pos.avgCost + qty * price) / (pos.qty + qty)))) := by
  refine ⟨?_, ?_, ?_⟩
  · intro px st s qty p oldQty oldAvg hpx hpos hmeta hsum h
    rw [PartTwo.buy_result hpx h]
    simp only
    unfold heldQty PartTwo.avgCost
    simp only [hpos, hmeta, Option.getD_some]
    constructor
    · rw [lookupKey_setKey_self]
    · rw [lookupKey_setKey_self, if_pos hsum]
      congr 1
      ring
  · intro px1 px2 st s q1 q2 p1 p2 hpos0 hmeta0 hpx1 hpx2 hq1 hq2 h1 h2
    have hr1 := PartTwo.buy_result hpx1 h1
    have hpos1 : lookupKey s (PartTwo.executeTrade px1 st s Side.buy q1).2.positions
        = some (0 + q1) := by
      rw [hr1]
      simp only
      unfold heldQty
      simp only [hpos0, Option.getD_none]
      exact lookupKey_setKey_self s _ st.positions
    have hmeta1 : lookupKey s (PartTwo.executeTrade px1 st s Side.buy q1).2.positionsMeta
        = some ((p1 * 0 + p1 * q1) / (0 + q1)) := by
      rw [hr1]
      simp only
      unfold heldQty PartTwo.avgCost
      simp only [hpos0, hmeta0, Option.getD_none]
      rw [if_pos (by linarith : (0:ℚ) < 0 + q1)]
      exact lookupKey_setKey_self s _ st.positionsMeta
    have hr2 := PartTwo.buy_result hpx2 h2
    rw [hr2]
    simp only
    unfold heldQty PartTwo.avgCost
    simp only [hpos1, hmeta1, Option.getD_some]
    constructor
    · rw [lookupKey_setKey_self]
      congr 1
      ring
    · rw [lookupKey_setKey_self, if_pos (by linarith : (0:ℚ) < 0 + q1 + q2)]
      congr 1
      have hq1' : q1 ≠ 0 := ne_of_gt hq1
      field_simp
      ring
  · intro st s price qty pos hl
    exact PartZero.simBuy_existing hl

/-- Witness for C4: concrete buys — adding 1 unit at price 4 to a position of
2 units at average 3 yields quantity 3 and average `(2*3+1*4)/3`; buying 3 at
2 then 1 at 4 of a fresh symbol yields quantity 4 and average `(3*2+1*4)/4`;
and part_000's `simBuy` recomputes the same way. -/
theorem claim_C4_witness :
    (lookupKey "E" (PartTwo.executeTrade (fun _ => some 4)
        (PartTwo.State.mk 100 [("E", 2)] [("E", 3)] []) "E" Side.buy 1).2.positions
      = some ((2:ℚ) + 1) ∧
     lookupKey "E" (PartTwo.executeTrade (fun _ => some 4)
        (PartTwo.State.mk 100 [("E", 2)] [("E", 3)] []) "E" Side.buy 1).2.positionsMeta
      = some (((2:ℚ) * 3 + 1 * 4) / (2 + 1))) ∧
    (lookupKey "E" (PartTwo.executeTrade (fun _ => some 4)
        (PartTwo.executeTrade (fun _ => some 2) (PartTwo.State.mk 100 [] [] []) "E"
          Side.buy 3).2 "E" Side.buy 1).2.positions = some ((3:ℚ) + 1) ∧
     lookupKey "E" (PartTwo.executeTrade (fun _ => some 4)
        (PartTwo.executeTrade (fun _ => some 2) (PartTwo.State.mk 100 [] [] []) "E"
          Side.buy 3).2 "E" Side.buy 1).2.positionsMeta
      = some (((3:ℚ) * 2 + 1 * 4) / (3 + 1))) ∧
    lookupKey "E" (PartZero.simBuy (PartZero.State.mk 0 [("E", PartZero.Pos.mk 2 5)] 0 [])
      "E" 7 3).positions
      = some (PartZero.Pos.mk ((2:ℚ) + 3) (((2:ℚ) * 5 + 3 * 7) / (2 + 3))) := by
  refine ⟨?_, ?_, ?_⟩
  · exact claim_C4.1 (fun _ => some 4) (PartTwo.State.mk 100 [("E", 2)] [("E", 3)] [])
      "E" 1 4 2 3 rfl (by decide) (by decide) (by norm_num)
      (by norm_num [PartTwo.executeTrade, PartTwo.canBuy, PartTwo.epsCash, heldQty,
        lookupKey])
  · exact claim_C4.2.1 (fun _ => some 2) (fun _ => some 4) (PartTwo.State.mk 100 [] [] [])
      "E" 3 1 2 4 (by decide) (by decide) rfl rfl (by norm_num) (by norm_num)
      (by norm_num [PartTwo.executeTrade, PartTwo.canBuy, PartTwo.epsCash, heldQty,
        lookupKey])
      (by norm_num [PartTwo.executeTrade, PartTwo.canBuy, PartTwo.epsCash, heldQty,
        lookupKey, setKey, PartTwo.avgCost])
  · exact claim_C4.2.2 (PartZero.State.mk 0 [("E", PartZero.Pos.mk 2 5)] 0 []) "E" 7 3
      (PartZero.Pos.mk 2 5) (by decide)

/-- Modelled from the spec: `realizedPnlToDate()` — "sum of realized P&L
across all SELL trades in history" — is absent from the sources; the Phase 1.4
script stores each SELL fill's pnl on its trade record, so the sum is over the
`pnl` fields of the SELL records of the trade history. -/
def PartTwo.realizedPnlToDate (st : PartTwo.State) : ℚ :=
  ((st.trades.filter (fun t => decide (t.side = Side.sell))).map
    (fun t => t.pnl.getD 0)).sum

/-- C5: a BUY appends a record with no pnl and leaves the realized P&L to
date unchanged; a SELL appends a record whose pnl is exactly
`(price − average cost at time of sale) × quantity` and increases the realized
P&L to date by exactly that amount (part_002); in part_000's simulator the
`simRealizedPnl` accumulator is likewise unchanged by the BUY branch and
increased by `qty × (price − avgCost)` by the SELL branch. -/
theorem claim_C5 :
    (∀ (px : String → Option ℚ) (st : PartTwo.State) (s : String) (qty p : ℚ),
      px s = some p → (PartTwo.executeTrade px st s Side.buy qty).1 = none →
      (PartTwo.executeTrade px st s Side.buy qty).2.trades
          = PartTwo.Trade.mk s Side.buy qty p (p * qty) none :: st.trades ∧
      PartTwo.realizedPnlToDate (PartTwo.executeTrade px st s Side.buy qty).2
          = PartTwo.realizedPnlToDate st) ∧
    (∀ (px : String → Option ℚ) (st : PartTwo.State) (s : String) (qty p : ℚ),
      px s = some p → (PartTwo.executeTrade px st s Side.sell qty).1 = none →
      (PartTwo.executeTrade px st s Side.sell qty).2.trades
          = PartTwo.Trade.mk s Side.sell qty p (p * qty)
              (some ((p - (PartTwo.avgCost st s).getD p) * qty)) :: st.trades ∧
      PartTwo.realizedPnlToDate (PartTwo.executeTrade px st s Side.sell qty).2
          = PartTwo.realizedPnlToDate st + (p - (PartTwo.avgCost st s).getD p) * qty) ∧
    (∀ (st : PartZero.State) (s : String) (price qty : ℚ),
      (PartZero.simBuy st s price qty).realizedPnl = st.realizedPnl) ∧
    (∀ (st : PartZero.State) (s : String) (price : ℚ) (pos : PartZero.Pos),
      lookupKey s st.positions = some pos → 0 < pos.qty →
      (PartZero.simSell st s price).realizedPnl
          = st.realizedPnl + pos.qty * (price - pos.avgCost)) := by
  refine ⟨?_, ?_, ?_, ?_⟩
  · intro px st s qty p hpx h
    rw [PartTwo.buy_result hpx h]
    refine ⟨rfl, ?_⟩
    simp [PartTwo.realizedPnlToDate, List.filter_cons]
  · intro px st s qty p hpx h
    rw [PartTwo.sell_result hpx h]
    refine ⟨rfl, ?_⟩
    simp only [PartTwo.realizedPnlToDate, List.filter_cons, decide_eq_true_eq]
    simp [List.filter_cons]
    ring
  · intro st s price qty
    unfold PartZero.simBuy
    rfl
  · intro st s price pos hl hq
    unfold PartZero.simSell
    simp only [hl]
    rw [if_pos hq]

/-- Witness for C5: from a position of 1 unit at average 3, a buy of 2 at
price 5 leaves realized P&L to date unchanged; a sell of 1 at price 5 records
and adds pnl `(5-3)*1`; part_000's accumulator behaves the same on concrete
states. -/
theorem claim_C5_witness :
    ((PartTwo.executeTrade (fun _ => some 5)
        (PartTwo.State.mk 100 [("E", 1)] [("E", 3)] []) "E" Side.buy 2).2.trades
      = PartTwo.Trade.mk "E" Side.buy 2 5 ((5:ℚ) * 2) none :: [] ∧
     PartTwo.realizedPnlToDate (PartTwo.executeTrade (fun _ => some 5)
        (PartTwo.State.mk 100 [("E", 1)] [("E", 3)] []) "E" Side.buy 2).2
      = PartTwo.realizedPnlToDate (PartTwo.State.mk 100 [("E", 1)] [("E", 3)] [])) ∧
    ((PartTwo.executeTrade (fun _ => some 5)
        (PartTwo.State.mk 100 [("E", 1)] [("E", 3)] []) "E" Side.sell 1).2.trades
      = PartTwo.Trade.mk "E" Side.sell 1 5 ((5:ℚ) * 1)
          (some (((5:ℚ) - ((PartTwo.avgCost
            (PartTwo.State.mk 100 [("E", 1)] [("E", 3)] []) "E").getD 5)) * 1)) :: [] ∧
     PartTwo.realizedPnlToDate (PartTwo.executeTrade (fun _ => some 5)
        (PartTwo.State.mk 100 [("E", 1)] [("E", 3)] []) "E" Side.sell 1).2
      = PartTwo.realizedPnlToDate (PartTwo.State.mk 100 [("E", 1)] [("E", 3)] [])
        + ((5:ℚ) - ((PartTwo.avgCost (PartTwo.State.mk 100 [("E", 1)] [("E", 3)] [])
            "E").getD 5)) * 1) ∧
    (PartZero.simBuy (PartZero.State.mk 50 [("E", PartZero.Pos.mk 2 4)] 7 []) "E" 5
      2).realizedPnl = (7:ℚ) ∧
    (PartZero.simSell (PartZero.State.mk 50 [("E", PartZero.Pos.mk 2 4)] 7 []) "E"
      5).realizedPnl = (7:ℚ) + 2 * ((5:ℚ) - 4) := by
  refine ⟨?_, ?_, ?_, ?_⟩
  · exact claim_C5.1 (fun _ => some 5) (PartTwo.State.mk 100 [("E", 1)] [("E", 3)] [])
      "E" 2 5 rfl
      (by norm_num [PartTwo.executeTrade, PartTwo.canBuy, PartTwo.epsCash, heldQty,
        lookupKey])
  · exact claim_C5.2.1 (fun _ => some 5) (PartTwo.State.mk 100 [("E", 1)] [("E", 3)] [])
      "E" 1 5 rfl
      (by norm_num [PartTwo.executeTrade, PartTwo.canSell, PartTwo.epsQty, heldQty,
        lookupKey])
  · exact claim_C5.2.2.1 (PartZero.State.mk 50 [("E", PartZero.Pos.mk 2 4)] 7 []) "E" 5 2
  · exact claim_C5.2.2.2 (PartZero.State.mk 50 [("E", PartZero.Pos.mk 2 4)] 7 []) "E" 5
      (PartZero.Pos.mk 2 4) (by decide) (by norm_num)

/-- C7: an accepted part_002 SELL that leaves the position open (remaining
quantity above the `1e-12` epsilon) leaves the whole `positionsMeta`
mapping — in particular the sold symbol's average cost — unchanged, and a
starting-balance deposit also leaves `positionsMeta` unchanged: average cost
changes only on BUY operations. -/
theorem claim_C7 :
    (∀ (px : String → Option ℚ) (st : PartTwo.State) (s : String) (qty p : ℚ),
      px s = some p → (PartTwo.executeTrade px st s Side.sell qty).1 = none →
      PartTwo.epsQty < heldQty s st.positions - qty →
      (PartTwo.executeTrade px st s Side.sell qty).2.positionsMeta
        = st.positionsMeta) ∧
    (∀ (symbols : List String) (st : PartTwo.State) (amt : ℚ),
      (PartTwo.step symbols st (PartTwo.Op.deposit amt)).positionsMeta
        = st.positionsMeta) := by
  constructor
  · intro px st s qty p hpx h hkeep
    rw [PartTwo.sell_result hpx h]
    simp only
    rw [if_neg (not_le.mpr hkeep)]
  · intro symbols st amt
    simp only [PartTwo.step]
    split <;> rfl

/-- Witness for C7: selling 2 of a 5-unit position at price 4 keeps the
average-cost map `{E: 3}`; a deposit of 10 keeps it as well. -/
theorem claim_C7_witness :
    (PartTwo.executeTrade (fun _ => some 4) (PartTwo.State.mk 0 [("E", 5)] [("E", 3)] [])
      "E" Side.sell 2).2.positionsMeta = [("E", 3)] ∧
    (PartTwo.step ["E"] (PartTwo.State.mk 0 [("E", 5)] [("E", 3)] [])
      (PartTwo.Op.deposit 10)).positionsMeta = [("E", 3)] :=
  ⟨claim_C7.1 (fun _ => some 4) (PartTwo.State.mk 0 [("E", 5)] [("E", 3)] []) "E" 2 4 rfl
      (by norm_num [PartTwo.executeTrade, PartTwo.canSell, PartTwo.epsQty, heldQty,
        lookupKey])
      (by norm_num [heldQty, lookupKey, PartTwo.epsQty]),
   claim_C7.2 ["E"] (PartTwo.State.mk 0 [("E", 5)] [("E", 3)] []) 10⟩

/-- C8 counterexample: `handleAddBalance` accepts `Infinity` — `isNaN(∞)` and
`∞ <= 0` are both false — so a non-finite amount is not rejected: from cash 0
the deposit goes through and cash becomes `Infinity`, contradicting the
claimed rejection of every non-finite amount. -/
theorem claim_C8_counterexample :
    (PartOne.handleAddBalance (PartOne.StateJ.mk (JsNum.fin 0) [] []) JsNum.inf).1
      = none ∧
    (PartOne.handleAddBalance (PartOne.StateJ.mk (JsNum.fin 0) [] []) JsNum.inf).2.cash
      = JsNum.inf := by
  constructor <;> rfl

/-- C8 (amended): `handleAddBalance` rejects (no-op, error toast) exactly when
the parsed amount is NaN or ≤ 0 (including −∞); every positive finite amount
is accepted and increases cash by exactly that amount with positions and
trades untouched; but +∞ is also accepted (divergence from the claim, see the
counterexample).  The part_002 preset handler `if (amt > 0) cash += amt`
behaves the same way (silently, with no error signal). -/
theorem claim_C8 :
    (∀ (st : PartOne.StateJ) (c a : ℚ), st.cash = JsNum.fin c → 0 < a →
      (PartOne.handleAddBalance st (JsNum.fin a)).1 = none ∧
      (PartOne.handleAddBalance st (JsNum.fin a)).2.cash = JsNum.fin (c + a) ∧
      (PartOne.handleAddBalance st (JsNum.fin a)).2.positions = st.positions ∧
      (PartOne.handleAddBalance st (JsNum.fin a)).2.trades = st.trades) ∧
    (∀ (st : PartOne.StateJ) (a : ℚ), a ≤ 0 →
      PartOne.handleAddBalance st (JsNum.fin a) = (some Unit.unit, st)) ∧
    (∀ st : PartOne.StateJ,
      PartOne.handleAddBalance st JsNum.nan = (some Unit.unit, st)) ∧
    (∀ st : PartOne.StateJ,
      PartOne.handleAddBalance st JsNum.ninf = (some Unit.unit, st)) ∧
    (∀ st : PartOne.StateJ, (PartOne.handleAddBalance st JsNum.inf).1 = none) ∧
    (∀ (c : ℚ) (a : ℚ), 0 < a →
      PartTwo.presetAdd (JsNum.fin c) (JsNum.fin a) = JsNum.fin (c + a)) ∧
    (∀ (c : JsNum) (a : ℚ), a ≤ 0 → PartTwo.presetAdd c (JsNum.fin a) = c) ∧
    (∀ c : JsNum, PartTwo.presetAdd c JsNum.inf = c.add JsNum.inf) := by
  refine ⟨?_, ?_, ?_, ?_, ?_, ?_, ?_, ?_⟩
  · intro st c a hc ha
    simp [PartOne.handleAddBalance, JsNum.isNaN, JsNum.leZero, not_le.mpr ha, hc,
      JsNum.add]
  · intro st a ha
    simp [PartOne.handleAddBalance, JsNum.isNaN, JsNum.leZero, ha]
  · intro st
    rfl
  · intro st
    rfl
  · intro st
    rfl
  · intro c a ha
    simp [PartTwo.presetAdd, JsNum.gtZero, ha, JsNum.add]
  · intro c a ha
    simp [PartTwo.presetAdd, JsNum.gtZero, not_lt.mpr ha]
  · intro c
    cases c <;> rfl

/-- Witness for C8: a deposit of 7 onto cash 3 is accepted and yields cash 10
with positions/trades untouched; deposits of −1, NaN and −∞ are rejected
no-ops; +∞ is accepted; the preset handler adds 7 to 3 and ignores −1. -/
theorem claim_C8_witness :
    ((PartOne.handleAddBalance (PartOne.StateJ.mk (JsNum.fin 3) [("E", 2)] [])
        (JsNum.fin 7)).1 = none ∧
     (PartOne.handleAddBalance (PartOne.StateJ.mk (JsNum.fin 3) [("E", 2)] [])
        (JsNum.fin 7)).2.cash = JsNum.fin ((3:ℚ) + 7) ∧
     (PartOne.handleAddBalance (PartOne.StateJ.mk (JsNum.fin 3) [("E", 2)] [])
        (JsNum.fin 7)).2.positions = [("E", 2)] ∧
     (PartOne.handleAddBalance (PartOne.StateJ.mk (JsNum.fin 3) [("E", 2)] [])
        (JsNum.fin 7)).2.trades = []) ∧
    PartOne.handleAddBalance (PartOne.StateJ.mk (JsNum.fin 3) [] []) (JsNum.fin (-1))
      = (some Unit.unit, PartOne.StateJ.mk (JsNum.fin 3) [] []) ∧
    PartOne.handleAddBalance (PartOne.StateJ.mk (JsNum.fin 3) [] []) JsNum.nan
      = (some Unit.unit, PartOne.StateJ.mk (JsNum.fin 3) [] []) ∧
    PartTwo.presetAdd (JsNum.fin 3) (JsNum.fin 7) = JsNum.fin ((3:ℚ) + 7) ∧
    PartTwo.presetAdd (JsNum.fin 3) (JsNum.fin (-1)) = JsNum.fin 3 :=
  ⟨claim_C8.1 (PartOne.StateJ.mk (JsNum.fin 3) [("E", 2)] []) 3 7 rfl (by norm_num),
   claim_C8.2.1 (PartOne.StateJ.mk (JsNum.fin 3) [] []) (-1) (by norm_num),
   claim_C8.2.2.1 (PartOne.StateJ.mk (JsNum.fin 3) [] []),
   claim_C8.2.2.2.2.2.1 3 7 (by norm_num),
   claim_C8.2.2.2.2.2.2.1 (JsNum.fin 3) (-1) (by norm_num)⟩

/-- Modelled from the spec: "positionsValue = Σ over open positions of
quantity × (latestPrices[symbol] ?? that position's average cost as a degraded
fallback)", for position records carrying their average cost (spec §3 data
model, as in part_000). -/
def specPositionsValue (px : String → Option ℚ) (l : List (String × PartZero.Pos)) : ℚ :=
  (l.map (fun e => e.2.qty * ((px e.1).getD e.2.avgCost))).sum

/-- Modelled from the spec: the §3 equity-point variant "positions with no
known price contribute 0", over a symbol→quantity map. -/
def specPositionsValueZero (px : String → Option ℚ) (l : SMap) : ℚ :=
  (l.map (fun e => e.2 * ((px e.1).getD 0))).sum

/-- C6 counterexample: part_001's `computePositionsValue` gives a position
with no known price the value 0, not its average-cost fallback: a position of
2 units whose average cost is 3 (so the spec formula gives 6) is valued 0 by
the code when the price map is empty. -/
theorem claim_C6_counterexample :
    PartOne.computePositionsValue (fun _ => none) [("E", 2)] = 0 ∧
    specPositionsValue (fun _ => none) [("E", PartZero.Pos.mk 2 3)] = 2 * 3 ∧
    PartOne.computePositionsValue (fun _ => none) [("E", 2)]
      ≠ specPositionsValue (fun _ => none) [("E", PartZero.Pos.mk 2 3)] := by
  refine ⟨?_, ?_, ?_⟩ <;>
    norm_num [PartOne.computePositionsValue, specPositionsValue]

/-- C6 (amended): part_000's `simulateStep` values open positions with the
latest watchlist price and falls back to the position's average cost (for
positive known prices this is exactly the spec's `??` fallback formula), while
part_001's `computePositionsValue` (and part_002's alike) values a position
with no known price at 0 — the spec's §3 "contribute 0" variant — with no
average-cost fallback; in each variant equity is cash plus that positions
value, and the computations read but never write ledger state. -/
theorem claim_C6 :
    (∀ (watch : String → Option ℚ) (l : List (String × PartZero.Pos)),
      (∀ s p, watch s = some p → p ≠ 0) →
      PartZero.positionsValue watch l = specPositionsValue watch l) ∧
    (∀ (px : String → Option ℚ) (m : SMap),
      PartOne.computePositionsValue px m = specPositionsValueZero px m) ∧
    (∀ (px : String → Option ℚ) (m : SMap), (∀ s p, px s = some p → p ≠ 0) →
      PartTwo.computePositionsValue px m = specPositionsValueZero px m) := by
  refine ⟨?_, ?_, ?_⟩
  · intro watch l hnz
    induction l with
    | nil => rfl
    | cons e rest ih =>
      simp only [PartZero.positionsValue, specPositionsValue, List.map_cons,
        List.sum_cons] at ih ⊢
      rw [ih]
      congr 1
      unfold PartZero.currentPrice
      cases hw : watch e.1 with
      | none => simp
      | some p => simp [hnz e.1 p hw]
  · intro px m
    unfold PartOne.computePositionsValue specPositionsValueZero
    induction m with
    | nil => rfl
    | cons e rest ih =>
      simp only [List.map_cons, List.sum_cons, ih]
      ring
  · intro px m hnz
    unfold PartTwo.computePositionsValue specPositionsValueZero
    induction m with
    | nil => rfl
    | cons e rest ih =>
      simp only [List.map_cons, List.sum_cons, ih]
      congr 1
      cases hw : px e.1 with
      | none => simp
      | some p =>
        simp only [Option.getD_some]
        rw [if_neg (hnz e.1 p hw)]
        ring

/-- Witness for C6: on the position list `{E: 2 units at avg 3}` with price 5
known, part_000's valuation agrees with the spec fallback formula; on
`{E: 2}` with price 5 known, part_001's and part_002's valuations agree with
the contribute-0 formula. -/
theorem claim_C6_witness :
    PartZero.positionsValue (fun _ => some 5) [("E", PartZero.Pos.mk 2 3)]
      = specPositionsValue (fun _ => some 5) [("E", PartZero.Pos.mk 2 3)] ∧
    PartOne.computePositionsValue (fun _ => some 5) [("E", 2)]
      = specPositionsValueZero (fun _ => some 5) [("E", 2)] ∧
    PartTwo.computePositionsValue (fun _ => some 5) [("E", 2)]
      = specPositionsValueZero (fun _ => some 5) [("E", 2)] :=
  ⟨claim_C6.1 (fun _ => some 5) [("E", PartZero.Pos.mk 2 3)]
      (fun _ p hp => by injection hp with hp; rw [← hp]; norm_num),
   claim_C6.2.1 (fun _ => some 5) [("E", 2)],
   claim_C6.2.2 (fun _ => some 5) [("E", 2)]
      (fun _ p hp => by injection hp with hp; rw [← hp]; norm_num)⟩

theorem dropWhile_lt_bound (c : ℚ) :
    ∀ l : List EqPoint, l.Pairwise (fun a b => a.t ≤ b.t) →
      ∀ q ∈ l.dropWhile (fun x => decide (x.t < c)), c ≤ q.t
  | [], _, q, hq => by simp [List.dropWhile] at hq
  | a :: rest, hp, q, hq => by
    rw [List.pairwise_cons] at hp
    by_cases ha : a.t < c
    · rw [List.dropWhile_cons, if_pos (by simpa using ha)] at hq
      exact dropWhile_lt_bound c rest hp.2 q hq
    · rw [List.dropWhile_cons, if_neg (by simpa using ha)] at hq
      rcases List.mem_cons.mp hq with rfl | hq2
      · exact not_lt.mp ha
      · exact le_trans (not_lt.mp ha) (hp.1 q hq2)

theorem capped_push_length_le (cap : ℕ) (hist : List EqPoint) (pt : EqPoint)
    (h : hist.length ≤ cap) :
    (let h1 := hist ++ [pt]; if cap < h1.length then h1.tail else h1).length ≤ cap := by
  simp only [List.length_append, List.length_singleton]
  split
  · simp only [List.length_tail, List.length_append, List.length_singleton]
    omega
  · next hc =>
    simp only [List.length_append, List.length_singleton]
    omega

theorem capped_push_suffix (cap : ℕ) (hist : List EqPoint) (pt : EqPoint) :
    (let h1 := hist ++ [pt]; if cap < h1.length then h1.tail else h1).IsSuffix
      (hist ++ [pt]) := by
  simp only
  split
  · exact List.tail_suffix _
  · exact List.suffix_refl _

/-- C9: each of the three equity-history recorders stays within its retention
bound and evicts only from the oldest (front) end, so the surviving points are
a suffix of the appended series in original order: part_001's
`pushEquityPoint` keeps at most 5000 points, part_000's push keeps at most 60
points, and part_002's `recordEquityPoint` (7-day age window) returns a suffix
that, when the existing series is time-sorted with points no newer than `now`,
is still sorted and contains only points within the window. -/
theorem claim_C9 :
    (∀ (hist : List EqPoint) (pt : EqPoint), hist.length ≤ 5000 →
      (PartOne.pushEquityPoint hist pt).length ≤ 5000 ∧
      (PartOne.pushEquityPoint hist pt).IsSuffix (hist ++ [pt])) ∧
    (∀ (hist : List EqPoint) (pt : EqPoint), hist.length ≤ 60 →
      (PartZero.pushEquity hist pt).length ≤ 60 ∧
      (PartZero.pushEquity hist pt).IsSuffix (hist ++ [pt])) ∧
    (∀ (hist : List EqPoint) (now eq : ℚ),
      (PartTwo.recordEquityPoint hist now eq).IsSuffix (hist ++ [EqPoint.mk now eq]) ∧
      (hist.Pairwise (fun a b => a.t ≤ b.t) → (∀ q ∈ hist, q.t ≤ now) →
        (PartTwo.recordEquityPoint hist now eq).Pairwise (fun a b => a.t ≤ b.t) ∧
        ∀ q ∈ PartTwo.recordEquityPoint hist now eq, now - PartTwo.weekMs ≤ q.t)) := by
  refine ⟨?_, ?_, ?_⟩
  · intro hist pt h
    exact ⟨capped_push_length_le 5000 hist pt h, capped_push_suffix 5000 hist pt⟩
  · intro hist pt h
    exact ⟨capped_push_length_le 60 hist pt h, capped_push_suffix 60 hist pt⟩
  · intro hist now eq
    have hsorted : ∀ (hp : hist.Pairwise (fun a b => a.t ≤ b.t))
        (hle : ∀ q ∈ hist, q.t ≤ now),
        (hist ++ [EqPoint.mk now eq]).Pairwise (fun a b => a.t ≤ b.t) := by
      intro hp hle
      rw [List.pairwise_append]
      exact ⟨hp, List.pairwise_singleton _ _, fun a ha b hb => by
        rw [List.mem_singleton] at hb
        rw [hb]
        exact hle a ha⟩
    refine ⟨List.dropWhile_suffix _, fun hp hle => ⟨?_, ?_⟩⟩
    · exact List.Pairwise.sublist (List.IsSuffix.sublist (List.dropWhile_suffix _))
        (hsorted hp hle)
    · exact dropWhile_lt_bound (now - PartTwo.weekMs) _ (hsorted hp hle)

/-- Witness for C9: concrete pushes — appending a point to a short series
keeps the bounds and yields a suffix; recording an equity point on a sorted
two-point series keeps it sorted, inside the 7-day window, and a suffix. -/
theorem claim_C9_witness :
    ((PartOne.pushEquityPoint [EqPoint.mk 1 10] (EqPoint.mk 2 11)).length ≤ 5000 ∧
     (PartOne.pushEquityPoint [EqPoint.mk 1 10] (EqPoint.mk 2 11)).IsSuffix
       ([EqPoint.mk 1 10] ++ [EqPoint.mk 2 11])) ∧
    ((PartZero.pushEquity [EqPoint.mk 1 10] (EqPoint.mk 2 11)).length ≤ 60 ∧
     (PartZero.pushEquity [EqPoint.mk 1 10] (EqPoint.mk 2 11)).IsSuffix
       ([EqPoint.mk 1 10] ++ [EqPoint.mk 2 11])) ∧
    ((PartTwo.recordEquityPoint [EqPoint.mk 1 10, EqPoint.mk 2 11] 3 12).Pairwise
       (fun a b => a.t ≤ b.t) ∧
     ∀ q ∈ PartTwo.recordEquityPoint [EqPoint.mk 1 10, EqPoint.mk 2 11] 3 12,
       (3:ℚ) - PartTwo.weekMs ≤ q.t) :=
  ⟨claim_C9.1 [EqPoint.mk 1 10] (EqPoint.mk 2 11) (by norm_num),
   claim_C9.2.1 [EqPoint.mk 1 10] (EqPoint.mk 2 11) (by norm_num),
   (claim_C9.2.2 [EqPoint.mk 1 10, EqPoint.mk 2 11] 3 12).2
     (by decide)
     (by decide)⟩

theorem PartOne.sell_accept_le {symbols : List String} {px : String → Option ℚ}
    {st : PartOne.State} {s : String} {qty : ℚ}
    (h : (PartOne.handleManualTrade symbols px st s Side.sell qty).1 = none) :
    qty ≤ heldQty s st.positions := by
  unfold PartOne.handleManualTrade at h
  split at h
  · simp at h
  · split at h
    · simp at h
    · cases hpx : px s with
      | none => simp [hpx] at h
      | some p =>
        simp only [hpx] at h
        split at h
        · simp at h
        · next hheld => exact not_lt.mp hheld

theorem PartTwo.sell_accept_le_eps {px : String → Option ℚ} {st : PartTwo.State} {s : String}
    {qty : ℚ} (h : (PartTwo.executeTrade px st s Side.sell qty).1 = none) :
    qty ≤ heldQty s st.positions + PartTwo.epsQty := by
  unfold PartTwo.executeTrade at h
  cases hpx : px s with
  | none => simp [hpx] at h
  | some p =>
    simp only [hpx] at h
    split at h
    · simp at h
    · next hp =>
      cases hcs : PartTwo.canSell st s qty with
      | some e => simp [hcs] at h
      | none => exact (PartTwo.canSell_none_iff).mp hcs

/-- C10 counterexample: part_002's epsilon deletion forfeits a sub-epsilon
residual: from a position of 1 unit, an accepted SELL of `1 - 1e-13` leaves
`1e-13 ≤ 1e-12`, so the whole key is deleted — the position quantity changes
by −1, not by the traded quantity, and equity valued at the execution price 1
drops from 1 to `1 - 1e-13`. -/
theorem claim_C10_counterexample :
    (PartTwo.executeTrade (fun _ => some 1)
      (PartTwo.State.mk 0 [("E", 1)] [("E", 1)] []) "E" Side.sell
      (1 - 1 / 10000000000000)).1 = none ∧
    heldQty "E" (PartTwo.executeTrade (fun _ => some 1)
      (PartTwo.State.mk 0 [("E", 1)] [("E", 1)] []) "E" Side.sell
      (1 - 1 / 10000000000000)).2.positions = 0 ∧
    heldQty "E" (PartTwo.executeTrade (fun _ => some 1)
      (PartTwo.State.mk 0 [("E", 1)] [("E", 1)] []) "E" Side.sell
      (1 - 1 / 10000000000000)).2.positions
      ≠ heldQty "E" [("E", (1:ℚ))] - (1 - 1 / 10000000000000) ∧
    (PartTwo.executeTrade (fun _ => some 1)
      (PartTwo.State.mk 0 [("E", 1)] [("E", 1)] []) "E" Side.sell
      (1 - 1 / 10000000000000)).2.cash + valueAt (fun _ => 1)
      (PartTwo.executeTrade (fun _ => some 1)
        (PartTwo.State.mk 0 [("E", 1)] [("E", 1)] []) "E" Side.sell
        (1 - 1 / 10000000000000)).2.positions
      ≠ (0:ℚ) + valueAt (fun _ => 1) [("E", 1)] := by
  refine ⟨?_, ?_, ?_, ?_⟩ <;>
    norm_num [PartTwo.executeTrade, PartTwo.canSell, PartTwo.epsQty, heldQty, lookupKey,
      PartTwo.avgCost, setKey, delKey, valueAt]

/-- C10 (amended): for every accepted trade at execution price p the cash
balance changes by exactly −qty·p on BUY and +qty·p on SELL, and equity
valued at any total price assignment that prices the traded symbol at p is
conserved, in part_001's handler, app.js's handler, and part_002's BUY; the
traded position quantity changes by exactly ±qty in those same cases, and for
a part_002 SELL whenever the remaining quantity is either exactly 0 or above
the `1e-12` epsilon — when the remainder lies in (0, 1e-12] the key is
deleted and the residual is forfeited (see the counterexample). -/
theorem claim_C10 :
    (∀ (symbols : List String) (px : String → Option ℚ) (st : PartOne.State) (s : String)
        (qty p : ℚ), px s = some p →
      (PartOne.handleManualTrade symbols px st s Side.buy qty).1 = none →
      (PartOne.handleManualTrade symbols px st s Side.buy qty).2.cash
          = st.cash - p * qty ∧
      heldQty s (PartOne.handleManualTrade symbols px st s Side.buy qty).2.positions
          = heldQty s st.positions + qty ∧
      ∀ pxv : String → ℚ, pxv s = p →
        (PartOne.handleManualTrade symbols px st s Side.buy qty).2.cash
          + valueAt pxv (PartOne.handleManualTrade symbols px st s Side.buy qty).2.positions
          = st.cash + valueAt pxv st.positions) ∧
    (∀ (symbols : List String) (px : String → Option ℚ) (st : PartOne.State) (s : String)
        (qty p : ℚ), px s = some p → keysNodup st.positions →
      (PartOne.handleManualTrade symbols px st s Side.sell qty).1 = none →
      (PartOne.handleManualTrade symbols px st s Side.sell qty).2.cash
          = st.cash + p * qty ∧
      heldQty s (PartOne.handleManualTrade symbols px st s Side.sell qty).2.positions
          = heldQty s st.positions - qty ∧
      ∀ pxv : String → ℚ, pxv s = p →
        (PartOne.handleManualTrade symbols px st s Side.sell qty).2.cash
          + valueAt pxv (PartOne.handleManualTrade symbols px st s Side.sell qty).2.positions
          = st.cash + valueAt pxv st.positions) ∧
    (∀ (px : String → Option ℚ) (st : AppJs.State) (s : String) (side : Side) (qty p : ℚ),
      px s = some p → (AppJs.manualTrade px st s side qty).1 = none →
      (AppJs.manualTrade px st s side qty).2.cash
          = (match side with
             | Side.buy => st.cash - p * qty
             | Side.sell => st.cash + p * qty) ∧
      heldQty s (AppJs.manualTrade px st s side qty).2.positions
          = (match side with
             | Side.buy => heldQty s st.positions + qty
             | Side.sell => heldQty s st.positions - qty) ∧
      ∀ pxv : String → ℚ, pxv s = p →
        (AppJs.manualTrade px st s side qty).2.cash
          + valueAt pxv (AppJs.manualTrade px st s side qty).2.positions
          = st.cash + valueAt pxv st.positions) ∧
    (∀ (px : String → Option ℚ) (st : PartTwo.State) (s : String) (qty p : ℚ),
      px s = some p → (PartTwo.executeTrade px st s Side.buy qty).1 = none →
      (PartTwo.executeTrade px st s Side.buy qty).2.cash = st.cash - p * qty ∧
      heldQty s (PartTwo.executeTrade px st s Side.buy qty).2.positions
          = heldQty s st.positions + qty ∧
      ∀ pxv : String → ℚ, pxv s = p →
        (PartTwo.executeTrade px st s Side.buy qty).2.cash
          + valueAt pxv (PartTwo.executeTrade px st s Side.buy qty).2.positions
          = st.cash + valueAt pxv st.positions) ∧
    (∀ (px : String → Option ℚ) (st : PartTwo.State) (s : String) (qty p : ℚ),
      px s = some p → keysNodup st.positions →
      (PartTwo.executeTrade px st s Side.sell qty).1 = none →
      (heldQty s st.positions - qty = 0 ∨
        PartTwo.epsQty < heldQty s st.positions - qty) →
      (PartTwo.executeTrade px st s Side.sell qty).2.cash = st.cash + p * qty ∧
      heldQty s (PartTwo.executeTrade px st s Side.sell qty).2.positions
          = heldQty s st.positions - qty ∧
      ∀ pxv : String → ℚ, pxv s = p →
        (PartTwo.executeTrade px st s Side.sell qty).2.cash
          + valueAt pxv (PartTwo.executeTrade px st s Side.sell qty).2.positions
          = st.cash + valueAt pxv st.positions) := by
  have heps : (0:ℚ) < PartTwo.epsQty := by norm_num [PartTwo.epsQty]
  refine ⟨?_, ?_, ?_, ?_, ?_⟩
  · intro symbols px st s qty p hpx h
    rw [PartOne.manual_buy_result hpx h]
    refine ⟨rfl, ?_, ?_⟩
    · unfold heldQty
      rw [lookupKey_setKey_self]
      rfl
    · intro pxv hpxv
      simp only
      rw [valueAt_setKey, hpxv]
      unfold heldQty
      ring
  · intro symbols px st s qty p hpx hnd h
    have hle : qty ≤ heldQty s st.positions := PartOne.sell_accept_le h
    rw [PartOne.manual_sell_result hpx h]
    by_cases hz : heldQty s st.positions - qty ≤ 0
    · have hz0 : heldQty s st.positions - qty = 0 := le_antisymm hz (by linarith)
      refine ⟨rfl, ?_, ?_⟩
      · simp only [if_pos hz]
        rw [delKey_setKey]
        unfold heldQty
        rw [lookupKey_delKey_self s _ hnd]
        simp only [Option.getD_none]
        unfold heldQty at hz0
        linarith
      · intro pxv hpxv
        simp only [if_pos hz]
        rw [delKey_setKey, valueAt_delKey, hpxv]
        have : (lookupKey s st.positions).getD 0 = qty := by
          unfold heldQty at hz0
          linarith
        rw [this]
        ring
    · refine ⟨rfl, ?_, ?_⟩
      · simp only [if_neg hz]
        unfold heldQty
        rw [lookupKey_setKey_self]
        rfl
      · intro pxv hpxv
        simp only [if_neg hz]
        rw [valueAt_setKey, hpxv]
        unfold heldQty
        ring
  · intro px st s side qty p hpx h
    rw [AppJs.trade_result hpx h]
    cases side with
    | buy =>
      refine ⟨rfl, ?_, ?_⟩
      · unfold heldQty
        rw [lookupKey_setKey_self]
        rfl
      · intro pxv hpxv
        simp only
        rw [valueAt_setKey, hpxv]
        unfold heldQty
        ring
    | sell =>
      refine ⟨rfl, ?_, ?_⟩
      · unfold heldQty
        rw [lookupKey_setKey_self]
        rfl
      · intro pxv hpxv
        simp only
        rw [valueAt_setKey, hpxv]
        unfold heldQty
        ring
  · intro px st s qty p hpx h
    rw [PartTwo.buy_result hpx h]
    refine ⟨rfl, ?_, ?_⟩
    · unfold heldQty
      rw [lookupKey_setKey_self]
      rfl
    · intro pxv hpxv
      simp only
      rw [valueAt_setKey, hpxv]
      unfold heldQty
      ring
  · intro px st s qty p hpx hnd h hside
    rw [PartTwo.sell_result hpx h]
    rcases hside with hz0 | hkeep
    · have hz : heldQty s st.positions - qty ≤ PartTwo.epsQty := by
        rw [hz0]
        linarith
      refine ⟨rfl, ?_, ?_⟩
      · simp only [if_pos hz]
        rw [delKey_setKey]
        unfold heldQty
        rw [lookupKey_delKey_self s _ hnd]
        simp only [Option.getD_none]
        unfold heldQty at hz0
        linarith
      · intro pxv hpxv
        simp only [if_pos hz]
        rw [delKey_setKey, valueAt_delKey, hpxv]
        have : (lookupKey s st.positions).getD 0 = qty := by
          unfold heldQty at hz0
          linarith
        rw [this]
        ring
    · have hz : ¬ heldQty s st.positions - qty ≤ PartTwo.epsQty := not_le.mpr hkeep
      refine ⟨rfl, ?_, ?_⟩
      · simp only [if_neg hz]
        unfold heldQty
        rw [lookupKey_setKey_self]
        rfl
      · intro pxv hpxv
        simp only [if_neg hz]
        rw [valueAt_setKey, hpxv]
        unfold heldQty
        ring

/-- Witness for C10: concrete accepted trades in each handler — buying 3 at
price 2 from cash 10 with one unit held, selling 2 at price 3 from five units
held, and a part_002 sell leaving 3 units — move cash by exactly ∓notional,
move the position by exactly ±quantity, and conserve equity at the execution
price. -/
theorem claim_C10_witness :
    ((PartOne.handleManualTrade ["E"] (fun _ => some 2)
        (PartOne.State.mk 10 [("E", 1)] []) "E" Side.buy 3).2.cash = (10:ℚ) - 2 * 3 ∧
     heldQty "E" (PartOne.handleManualTrade ["E"] (fun _ => some 2)
        (PartOne.State.mk 10 [("E", 1)] []) "E" Side.buy 3).2.positions = (1:ℚ) + 3 ∧
     (PartOne.handleManualTrade ["E"] (fun _ => some 2)
        (PartOne.State.mk 10 [("E", 1)] []) "E" Side.buy 3).2.cash
       + valueAt (fun _ => 2) (PartOne.handleManualTrade ["E"] (fun _ => some 2)
          (PartOne.State.mk 10 [("E", 1)] []) "E" Side.buy 3).2.positions
       = (10:ℚ) + valueAt (fun _ => 2) [("E", 1)]) ∧
    ((PartOne.handleManualTrade ["E"] (fun _ => some 3)
        (PartOne.State.mk 0 [("E", 5)] []) "E" Side.sell 2).2.cash = (0:ℚ) + 3 * 2 ∧
     heldQty "E" (PartOne.handleManualTrade ["E"] (fun _ => some 3)
        (PartOne.State.mk 0 [("E", 5)] []) "E" Side.sell 2).2.positions = (5:ℚ) - 2 ∧
     (PartOne.handleManualTrade ["E"] (fun _ => some 3)
        (PartOne.State.mk 0 [("E", 5)] []) "E" Side.sell 2).2.cash
       + valueAt (fun _ => 3) (PartOne.handleManualTrade ["E"] (fun _ => some 3)
          (PartOne.State.mk 0 [("E", 5)] []) "E" Side.sell 2).2.positions
       = (0:ℚ) + valueAt (fun _ => 3) [("E", 5)]) ∧
    ((AppJs.manualTrade (fun _ => some 3) (AppJs.State.mk 0 [("E", 5)] []) "E"
        Side.sell 2).2.cash = (0:ℚ) + 3 * 2 ∧
     heldQty "E" (AppJs.manualTrade (fun _ => some 3) (AppJs.State.mk 0 [("E", 5)] [])
        "E" Side.sell 2).2.positions = (5:ℚ) - 2 ∧
     (AppJs.manualTrade (fun _ => some 3) (AppJs.State.mk 0 [("E", 5)] []) "E"
        Side.sell 2).2.cash
       + valueAt (fun _ => 3) (AppJs.manualTrade (fun _ => some 3)
          (AppJs.State.mk 0 [("E", 5)] []) "E" Side.sell 2).2.positions
       = (0:ℚ) + valueAt (fun _ => 3) [("E", 5)]) ∧
    ((PartTwo.executeTrade (fun _ => some 2)
        (PartTwo.State.mk 10 [("E", 1)] [("E", 4)] []) "E" Side.buy 3).2.cash
       = (10:ℚ) - 2 * 3 ∧
     heldQty "E" (PartTwo.executeTrade (fun _ => some 2)
        (PartTwo.State.mk 10 [("E", 1)] [("E", 4)] []) "E" Side.buy 3).2.positions
       = (1:ℚ) + 3 ∧
     (PartTwo.executeTrade (fun _ => some 2)
        (PartTwo.State.mk 10 [("E", 1)] [("E", 4)] []) "E" Side.buy 3).2.cash
       + valueAt (fun _ => 2) (PartTwo.executeTrade (fun _ => some 2)
          (PartTwo.State.mk 10 [("E", 1)] [("E", 4)] []) "E" Side.buy 3).2.positions
       = (10:ℚ) + valueAt (fun _ => 2) [("E", 1)]) ∧
    ((PartTwo.executeTrade (fun _ => some 3)
        (PartTwo.State.mk 0 [("E", 5)] [("E", 4)] []) "E" Side.sell 2).2.cash
       = (0:ℚ) + 3 * 2 ∧
     heldQty "E" (PartTwo.executeTrade (fun _ => some 3)
        (PartTwo.State.mk 0 [("E", 5)] [("E", 4)] []) "E" Side.sell 2).2.positions
       = (5:ℚ) - 2 ∧
     (PartTwo.executeTrade (fun _ => some 3)
        (PartTwo.State.mk 0 [("E", 5)] [("E", 4)] []) "E" Side.sell 2).2.cash
       + valueAt (fun _ => 3) (PartTwo.executeTrade (fun _ => some 3)
          (PartTwo.State.mk 0 [("E", 5)] [("E", 4)] []) "E" Side.sell 2).2.positions
       = (0:ℚ) + valueAt (fun _ => 3) [("E", 5)]) := by
  have h1 : (PartOne.handleManualTrade ["E"] (fun _ => some 2)
      (PartOne.State.mk 10 [("E", 1)] []) "E" Side.buy 3).1 = none := by
    norm_num [PartOne.handleManualTrade, heldQty, lookupKey]
  have h2 : (PartOne.handleManualTrade ["E"] (fun _ => some 3)
      (PartOne.State.mk 0 [("E", 5)] []) "E" Side.sell 2).1 = none := by
    norm_num [PartOne.handleManualTrade, heldQty, lookupKey]
  have h3 : (AppJs.manualTrade (fun _ => some 3) (AppJs.State.mk 0 [("E", 5)] []) "E"
      Side.sell 2).1 = none := by
    norm_num [AppJs.manualTrade, heldQty, lookupKey]
    decide
  have h4 : (PartTwo.executeTrade (fun _ => some 2)
      (PartTwo.State.mk 10 [("E", 1)] [("E", 4)] []) "E" Side.buy 3).1 = none := by
    norm_num [PartTwo.executeTrade, PartTwo.canBuy, PartTwo.epsCash, heldQty, lookupKey]
  have h5 : (PartTwo.executeTrade (fun _ => some 3)
      (PartTwo.State.mk 0 [("E", 5)] [("E", 4)] []) "E" Side.sell 2).1 = none := by
    norm_num [PartTwo.executeTrade, PartTwo.canSell, PartTwo.epsQty, heldQty, lookupKey]
  have hnd1 : keysNodup ([("E", (5:ℚ))]) := by simp [keysNodup, mapKeys]
  refine ⟨?_, ?_, ?_, ?_, ?_⟩
  · obtain ⟨a, b, c⟩ := claim_C10.1 ["E"] (fun _ => some 2)
      (PartOne.State.mk 10 [("E", 1)] []) "E" 3 2 rfl h1
    refine ⟨a, ?_, ?_⟩
    · rw [b]
      norm_num [heldQty, lookupKey]
    · exact c (fun _ => 2) rfl
  · obtain ⟨a, b, c⟩ := claim_C10.2.1 ["E"] (fun _ => some 3)
      (PartOne.State.mk 0 [("E", 5)] []) "E" 2 3 rfl hnd1 h2
    refine ⟨a, ?_, ?_⟩
    · rw [b]
      norm_num [heldQty, lookupKey]
    · exact c (fun _ => 3) rfl
  · obtain ⟨a, b, c⟩ := claim_C10.2.2.1 (fun _ => some 3) (AppJs.State.mk 0 [("E", 5)] [])
      "E" Side.sell 2 3 rfl h3
    refine ⟨a, ?_, ?_⟩
    · rw [b]
      norm_num [heldQty, lookupKey]
    · exact c (fun _ => 3) rfl
  · obtain ⟨a, b, c⟩ := claim_C10.2.2.2.1 (fun _ => some 2)
      (PartTwo.State.mk 10 [("E", 1)] [("E", 4)] []) "E" 3 2 rfl h4
    refine ⟨a, ?_, ?_⟩
    · rw [b]
      norm_num [heldQty, lookupKey]
    · exact c (fun _ => 2) rfl
  · obtain ⟨a, b, c⟩ := claim_C10.2.2.2.2 (fun _ => some 3)
      (PartTwo.State.mk 0 [("E", 5)] [("E", 4)] []) "E" 2 3 rfl hnd1 h5
      (by right; norm_num [heldQty, lookupKey, PartTwo.epsQty])
    refine ⟨a, ?_, ?_⟩
    · rw [b]
      norm_num [heldQty, lookupKey]
    · exact c (fun _ => 3) rfl

end MrTeals
